import Mathlib

/-! Monte-Carlo Tic-Tac-Toe (`mcttt.c`): shallow embedding and verified properties.

The C program keeps a 3x3 board in `TTTPiece p[9]`, detects wins with
`ttt_check_win`, and chooses the computer's move with `ttt_run_random_games`,
which plays `count` random games from the current position and scores the
first move of every game.

Modelling conventions:

* `int` values are `Int`; the 32-bit accumulators `wincount[i]` are updated with
  an explicit two's-complement wrap (`wrapInt`).
* `rand()` is a stream `rnd : Nat → Nat` together with the index `k` of the next
  unread value; every function that may call `rand()` returns the new index.
* An array access with an index outside `0..8`, a failed `assert`, and an
  exhausted loop budget are reported as a `Fault`.
* The `printf` diagnostics of `ttt_run_random_games` do not influence any
  returned value and are left out.
-/

namespace MCTTT

/-- The enum `tttpiece` of the C source. -/
inductive TTTPiece
  | MARK_NONE
  | MARK_X
  | MARK_O
  deriving DecidableEq, Repr, Fintype

open TTTPiece

/-- The struct `tttboard`: nine cells, indexed `0..8` in row-major order. -/
@[ext]
structure TTTBoard where
  p : Fin 9 → TTTPiece

/-- Boards are compared cell by cell. -/
instance instDecidableEqTTTBoard : DecidableEq TTTBoard := fun a b =>
  decidable_of_iff (a.p = b.p) ⟨fun h => TTTBoard.ext h, fun h => by rw [h]⟩

/-- Ways in which an execution leaves the defined behaviour of the C program. -/
inductive Fault
  | outOfBounds
  | assertFailed
  | outOfFuel
  deriving DecidableEq, Repr

/-- Results of fallible steps can be compared by evaluation. -/
instance instDecidableEqExcept {ε α : Type} [DecidableEq ε] [DecidableEq α] :
    DecidableEq (Except ε α)
  | .ok a, .ok b => decidable_of_iff (a = b) (by constructor <;> simp)
  | .error a, .error b => decidable_of_iff (a = b) (by constructor <;> simp)
  | .ok _, .error _ => isFalse (by simp)
  | .error _, .ok _ => isFalse (by simp)

def WIN_POINTS : Int := 1

def LOSS_POINTS : Int := -10

def DRAW_POINTS : Int := 0

def ROUNDS : Int := 30000

def INT_MIN : Int := -2147483648

def INT_MAX : Int := 2147483647

/-- Two's-complement reduction of an integer to the range of a 32-bit `int`. -/
def wrapInt (x : Int) : Int := (x + 2147483648) % 4294967296 - 2147483648

/-- The index range of every `for (i = 0; i < 9; i++)` loop, in loop order. -/
def cells : List (Fin 9) := [0, 1, 2, 3, 4, 5, 6, 7, 8]

/-- Conversion of a C `int` used as a subscript of a 9-element array. -/
def toIdx (i : Int) : Option (Fin 9) :=
  if h : 0 ≤ i ∧ i < 9 then some ⟨i.toNat, by omega⟩ else none

/-- The value of a cell index as a C `int`. -/
def ofIdx (i : Fin 9) : Int := ((i : Nat) : Int)

/-- Assignment `board->p[i] = v`. -/
def setCell (board : TTTBoard) (i : Fin 9) (v : TTTPiece) : TTTBoard :=
  { p := Function.update board.p i v }

/-- `ttt_check_win` (lines 48-62): eight chained comparisons, first hit wins. -/
def ttt_check_win (board : TTTBoard) : TTTPiece :=
  let p := board.p
  if p 0 = p 1 ∧ p 1 = p 2 then p 2
  else if p 3 = p 4 ∧ p 4 = p 5 then p 5
  else if p 6 = p 7 ∧ p 7 = p 8 then p 8
  else if p 0 = p 3 ∧ p 3 = p 6 then p 6
  else if p 1 = p 4 ∧ p 4 = p 7 then p 7
  else if p 2 = p 5 ∧ p 5 = p 8 then p 8
  else if p 0 = p 4 ∧ p 4 = p 8 then p 8
  else if p 2 = p 4 ∧ p 4 = p 6 then p 6
  else MARK_NONE

/-- `ttt_clear_board` (lines 67-74). -/
def ttt_clear_board (_board : TTTBoard) : TTTBoard :=
  cells.foldl (fun b i => setCell b i MARK_NONE) _board

/-- `ttt_copy_board` (lines 79-82): the structure assignment `*dest = *src`. -/
def ttt_copy_board (_dest src : TTTBoard) : TTTBoard := src

/-- The loop of `ttt_board_full` over the remaining indices. -/
def boardFullLoop (board : TTTBoard) : List (Fin 9) → Int
  | [] => 1
  | i :: rest => if board.p i = MARK_NONE then 0 else boardFullLoop board rest

/-- `ttt_board_full` (lines 87-96). -/
def ttt_board_full (board : TTTBoard) : Int := boardFullLoop board cells

/-- The loops `if (cond(i)) candidate[candidatecount++] = i;` (lines 131-135 and
210-214): `cand` is the filled prefix of the array `candidate`. -/
def collectCandidates (keep : Fin 9 → Bool) : List (Fin 9) → List (Fin 9) → List (Fin 9)
  | [], cand => cand
  | i :: rest, cand => collectCandidates keep rest (if keep i then cand ++ [i] else cand)

/-- The array `candidate` of `ttt_choose_random_move` after its loop. -/
def emptyCandidates (board : TTTBoard) : List (Fin 9) :=
  collectCandidates (fun i => decide (board.p i = MARK_NONE)) cells []

/-- `ttt_choose_random_move` (lines 125-140).  Returns the chosen position (or
`-1`) and the index of the next unread random value; `rand()` is called only
when a candidate exists. -/
def ttt_choose_random_move (rnd : Nat → Nat) (k : Nat) (board : TTTBoard) : Int × Nat :=
  let candidate := emptyCandidates board
  if h : candidate.length = 0 then (-1, k)
  else (ofIdx (candidate.get ⟨rnd k % candidate.length,
          Nat.mod_lt _ (Nat.pos_of_ne_zero h)⟩), k + 1)

/-- Result of one simulated game: the last value of `winner`, `firstmove`, the
index of the next unread random value and the final scratch board `tmp`.
`placed` is a ghost record of the assignments `tmp.p[pos] = player` of line 184,
in execution order. -/
structure Rollout where
  winner : TTTPiece
  firstmove : Int
  next : Nat
  tmp : TTTBoard
  placed : List (Fin 9 × TTTPiece)
  deriving DecidableEq

/-- The `while` loop of lines 177-190.  `fuel` bounds the number of loop tests;
running out of it is reported as `Fault.outOfFuel`. -/
def rolloutLoop (rnd : Nat → Nat) :
    Nat → TTTBoard → TTTPiece → Int → Nat → List (Fin 9 × TTTPiece) →
      Except Fault Rollout
  | 0, _, _, _, _, _ => .error Fault.outOfFuel
  | fuel + 1, tmp, player, firstmove, k, placed =>
    let winner := ttt_check_win tmp
    if winner ≠ MARK_NONE then .ok ⟨winner, firstmove, k, tmp, placed⟩
    else
      let r := ttt_choose_random_move rnd k tmp
      let pos := r.1
      if pos = -1 then .ok ⟨MARK_NONE, firstmove, r.2, tmp, placed⟩
      else
        match toIdx pos with
        | none => .error Fault.outOfBounds
        | some i =>
          if tmp.p i ≠ MARK_NONE then .error Fault.assertFailed
          else
            rolloutLoop rnd fuel (setCell tmp i player)
              (if player = MARK_X then MARK_O else MARK_X)
              (if firstmove = -1 then pos else firstmove) r.2 (placed ++ [(i, player)])

/-- Lines 174-190: copy the board, start with the real player and no first
move, and play until the loop stops.  The loop places at most nine marks (after
one ineffective placement when `currealplayer` is `MARK_NONE`), so eleven loop
tests always suffice (`rollout_firstmove`, `rolloutLoop_ok`). -/
def rollout (rnd : Nat → Nat) (k : Nat) (board : TTTBoard) (currealplayer : TTTPiece) :
    Except Fault Rollout :=
  rolloutLoop rnd 11 (ttt_copy_board board board) currealplayer (-1) k []

/-- The points line 193-201 add for a finished game. -/
def points (winner currealplayer : TTTPiece) : Int :=
  if winner ≠ MARK_NONE then
    if winner = currealplayer then WIN_POINTS else LOSS_POINTS
  else DRAW_POINTS

/-- Lines 192-201: `wincount[firstmove] += points`. -/
def scoreRollout (wincount : Fin 9 → Int) (winner currealplayer : TTTPiece)
    (firstmove : Int) : Except Fault (Fin 9 → Int) :=
  match toIdx firstmove with
  | none => .error Fault.outOfBounds
  | some i =>
    .ok (Function.update wincount i (wrapInt (wincount i + points winner currealplayer)))

/-- The initialisation loop of lines 161-168 over the remaining indices; the
state is `(wincount, hasfreespace)`. -/
def initLoop (board : TTTBoard) :
    List (Fin 9) → (Fin 9 → Int) × Bool → (Fin 9 → Int) × Bool
  | [], s => s
  | i :: rest, s =>
    initLoop board rest
      (if board.p i = MARK_NONE then (Function.update s.1 i 0, true)
       else (Function.update s.1 i INT_MIN, s.2))

/-- Lines 159-168: `wincount` and `hasfreespace` after the initialisation loop. -/
def initScores (board : TTTBoard) : (Fin 9 → Int) × Bool :=
  initLoop board cells (fun _ => 0, false)

/-- The loop of lines 173-202, for the `n` rounds still to play. -/
def playRounds (rnd : Nat → Nat) (board : TTTBoard) (currealplayer : TTTPiece) :
    Nat → (Fin 9 → Int) → Nat → Except Fault ((Fin 9 → Int) × Nat)
  | 0, wincount, k => .ok (wincount, k)
  | n + 1, wincount, k =>
    match rollout rnd k board currealplayer with
    | .error e => .error e
    | .ok g =>
      match scoreRollout wincount g.winner currealplayer g.firstmove with
      | .error e => .error e
      | .ok wincount1 => playRounds rnd board currealplayer n wincount1 g.next

/-- The loop of lines 206-208 over the remaining indices. -/
def maxLoop (wincount : Fin 9 → Int) : List (Fin 9) → Int → Int
  | [], maxwins => maxwins
  | i :: rest, maxwins =>
    maxLoop wincount rest (if wincount i > maxwins then wincount i else maxwins)

/-- Lines 206-208: `maxwins` after the loop. -/
def maxScore (wincount : Fin 9 → Int) : Int := maxLoop wincount cells INT_MIN

/-- Lines 210-214: the array `candidate` of `ttt_run_random_games`. -/
def bestCandidates (wincount : Fin 9 → Int) : List (Fin 9) :=
  collectCandidates (fun i => decide (wincount i = maxScore wincount)) cells []

/-- Lines 204-230: find the best score, collect the cells that reach it, and
draw one of them. -/
def selectBest (rnd : Nat → Nat) (k : Nat) (wincount : Fin 9 → Int) :
    Except Fault (Int × Nat) :=
  let candidate := bestCandidates wincount
  if h : candidate.length = 0 then .error Fault.assertFailed
  else .ok (ofIdx (candidate.get ⟨rnd k % candidate.length,
          Nat.mod_lt _ (Nat.pos_of_ne_zero h)⟩), k + 1)

/-- Lines 161-202 for a board with a free cell: the score vector after `count`
rounds, with the index of the next unread random value. -/
def runScores (rnd : Nat → Nat) (k : Nat) (board : TTTBoard) (currealplayer : TTTPiece)
    (count : Int) : Except Fault ((Fin 9 → Int) × Nat) :=
  playRounds rnd board currealplayer count.toNat (initScores board).1 k

/-- `ttt_run_random_games` (lines 151-231).  Returns the chosen position (or
`-1`) and the index of the next unread random value. -/
def ttt_run_random_games (rnd : Nat → Nat) (k : Nat) (board : TTTBoard)
    (currealplayer : TTTPiece) (count : Int) : Except Fault (Int × Nat) :=
  if (initScores board).2 = false then .ok (-1, k)
  else
    match runScores rnd k board currealplayer count with
    | .error e => .error e
    | .ok s => selectBest rnd s.2 s.1

/-- Board literal from its nine cells in index order. -/
def mkBoard (c0 c1 c2 c3 c4 c5 c6 c7 c8 : TTTPiece) : TTTBoard :=
  { p := ![c0, c1, c2, c3, c4, c5, c6, c7, c8] }

/-- The eight index triples compared by `ttt_check_win`, in source order. -/
def winLines : List (Fin 9 × Fin 9 × Fin 9) :=
  [(0, 1, 2), (3, 4, 5), (6, 7, 8), (0, 3, 6), (1, 4, 7), (2, 5, 8), (0, 4, 8), (2, 4, 6)]

/-- The board holding `m` on the three cells of `l` and `MARK_NONE` elsewhere. -/
def lineBoard (l : Fin 9 × Fin 9 × Fin 9) (m : TTTPiece) : TTTBoard :=
  { p := fun i => if i = l.1 ∨ i = l.2.1 ∨ i = l.2.2 then m else MARK_NONE }

/-- The three cells of line `l` all hold the mark `m`. -/
def lineHeldBy (board : TTTBoard) (l : Fin 9 × Fin 9 × Fin 9) (m : TTTPiece) : Prop :=
  board.p l.1 = m ∧ board.p l.2.1 = m ∧ board.p l.2.2 = m

instance instDecidableLineHeldBy (board : TTTBoard) (l : Fin 9 × Fin 9 × Fin 9)
    (m : TTTPiece) : Decidable (lineHeldBy board l m) := by
  unfold lineHeldBy; infer_instance

/-- The specification's `legalMoves`: all indices whose cell is empty, in
ascending index order. -/
def legalMoves (board : TTTBoard) : List (Fin 9) :=
  (List.finRange 9).filter (fun i => decide (board.p i = MARK_NONE))

/-- Number of empty cells of a board (`candidatecount` of
`ttt_choose_random_move`). -/
def numEmpty (board : TTTBoard) : Nat := (emptyCandidates board).length

/-- The statement `player = (player == MARK_X)? MARK_O: MARK_X` of line 189. -/
def nextPlayer (player : TTTPiece) : TTTPiece :=
  if player = MARK_X then MARK_O else MARK_X

/-- The scenario board `[A, A, Empty, B, B, Empty, Empty, Empty, Empty]`. -/
def boardTwoRows (a b : TTTPiece) : TTTBoard :=
  mkBoard a a MARK_NONE b b MARK_NONE MARK_NONE MARK_NONE MARK_NONE

/-- The scenario board `[A, A, Empty, B, Empty, Empty, Empty, Empty, Empty]`. -/
def boardThreeMarks (a b : TTTPiece) : TTTBoard :=
  mkBoard a a MARK_NONE b MARK_NONE MARK_NONE MARK_NONE MARK_NONE MARK_NONE

/-- Winner, first move and next random index of a finished rollout. -/
def Rollout.summary (g : Rollout) : TTTPiece × Int × Nat := (g.winner, g.firstmove, g.next)

/-- Summary of a rollout that may have faulted. -/
def rolloutSummary (rnd : Nat → Nat) (k : Nat) (board : TTTBoard) (currealplayer : TTTPiece) :
    Except Fault (TTTPiece × Int × Nat) :=
  match rollout rnd k board currealplayer with
  | .error e => .error e
  | .ok g => .ok g.summary

/-- A position with four free cells (0, 2, 3, 4) and no completed line, on which
every free cell can start both a game won and a game lost by `MARK_X`. -/
def collisionBoard : TTTBoard :=
  mkBoard MARK_NONE MARK_X MARK_NONE MARK_NONE MARK_NONE MARK_O MARK_X MARK_O MARK_O

/-- A board with a completed top row and six free cells. -/
def wonBoard : TTTBoard :=
  mkBoard MARK_X MARK_X MARK_X MARK_NONE MARK_NONE MARK_NONE MARK_NONE MARK_NONE MARK_NONE

/-- A random stream that is constant on eight consecutive stretches: for each
free cell of `collisionBoard` in turn, two games won and then 214748365 games
lost by `MARK_X` that start on this cell; the value read afterwards is 1. -/
def collisionRnd (j : Nat) : Nat :=
  if j < 6 then 4
  else if j < 429496736 then 0
  else if j < 429496742 then 1
  else if j < 1288490202 then 5
  else if j < 1288490208 then 2
  else if j < 2147483668 then 6
  else if j < 2147483674 then 11
  else if j < 3006477134 then 3
  else 1

/-- Score vector literal from its nine entries in index order. -/
def scoreVec (c0 c1 c2 c3 c4 c5 c6 c7 c8 : Int) : Fin 9 → Int :=
  ![c0, c1, c2, c3, c4, c5, c6, c7, c8]

/-- The specification's reading of `ttt_check_win`: the first of the eight lines,
in source order, whose three cells are equal to one another (three empty cells
count as equal). -/
def firstEqualLine (board : TTTBoard) : Option (Fin 9 × Fin 9 × Fin 9) :=
  winLines.find? (fun l => decide (board.p l.1 = board.p l.2.1 ∧ board.p l.2.1 = board.p l.2.2))

/-- The specification's reading of `ttt_check_win`: the mark of the first line
with three equal cells, and `MARK_NONE` when there is none. -/
def checkWinSpec (board : TTTBoard) : TTTPiece :=
  match firstEqualLine board with
  | some l => board.p l.2.2
  | none => MARK_NONE

/-- The call `ttt_check_win(&b)` with its effect on `b`: the returned mark and the
board after the call.  Lines 48-62 read `p[..]` and assign nothing through `p`. -/
def ttt_check_win_call (board : TTTBoard) : TTTPiece × TTTBoard :=
  let p := board.p
  if p 0 = p 1 ∧ p 1 = p 2 then (p 2, board)
  else if p 3 = p 4 ∧ p 4 = p 5 then (p 5, board)
  else if p 6 = p 7 ∧ p 7 = p 8 then (p 8, board)
  else if p 0 = p 3 ∧ p 3 = p 6 then (p 6, board)
  else if p 1 = p 4 ∧ p 4 = p 7 then (p 7, board)
  else if p 2 = p 5 ∧ p 5 = p 8 then (p 8, board)
  else if p 0 = p 4 ∧ p 4 = p 8 then (p 8, board)
  else if p 2 = p 4 ∧ p 4 = p 6 then (p 6, board)
  else (MARK_NONE, board)

/-- The loop of `ttt_board_full` with its effect on the inspected board. -/
def boardFullLoopCall (board : TTTBoard) : List (Fin 9) → Int × TTTBoard
  | [] => (1, board)
  | i :: rest => if board.p i = MARK_NONE then (0, board) else boardFullLoopCall board rest

/-- The call `ttt_board_full(&b)` with its effect on `b` (lines 87-96). -/
def ttt_board_full_call (board : TTTBoard) : Int × TTTBoard := boardFullLoopCall board cells

/-- The board reached from `board` by the assignments `tmp.p[pos] = player` of
`placed`, in order. -/
def boardAfter (board : TTTBoard) (placed : List (Fin 9 × TTTPiece)) : TTTBoard :=
  placed.foldl (fun b m => setCell b m.1 m.2) board

/-- A sequence of placements as the `while` loop of lines 177-190 makes them from
scratch board `tmp` with mover `player`: before each placement `ttt_check_win`
reports no winner, the target cell is empty, the mover's mark is written, and the
mover changes as in line 189. -/
def validTrace : TTTBoard → TTTPiece → List (Fin 9 × TTTPiece) → Prop
  | _, _, [] => True
  | tmp, player, m :: rest =>
    m.2 = player ∧ tmp.p m.1 = MARK_NONE ∧ ttt_check_win tmp = MARK_NONE ∧
      validTrace (setCell tmp m.1 player) (nextPlayer player) rest

/-- A position reached by alternate play (two marks each, `MARK_X` to move) in
which `MARK_X` completes the middle row by playing cell 5 while the top row is
still empty. -/
def middleRowBoard : TTTBoard :=
  mkBoard MARK_NONE MARK_NONE MARK_NONE MARK_X MARK_X MARK_NONE MARK_O MARK_O MARK_NONE

/-- The placements of a rollout that may have faulted. -/
def rolloutPlaced (rnd : Nat → Nat) (k : Nat) (board : TTTBoard) (currealplayer : TTTPiece) :
    Except Fault (List (Fin 9 × TTTPiece)) :=
  match rollout rnd k board currealplayer with
  | .error e => .error e
  | .ok g => .ok g.placed

/-- State of `ttt_run_random_games` between rounds: the caller's `*board`, the
local `tmp`, the array `wincount`, the index of the next unread random value, and
a ghost log of the rollouts finished so far. -/
structure RunState where
  board : TTTBoard
  tmp : TTTBoard
  wincount : Fin 9 → Int
  next : Nat
  log : List Rollout

/-- The loop of lines 173-202 as a transformer of the state: line 174 overwrites
`tmp` with `*board`, the `while` loop works on `tmp`, and lines 192-201 update
`wincount`; nothing is assigned through `board`. -/
def playRoundsState (rnd : Nat → Nat) (currealplayer : TTTPiece) :
    Nat → RunState → Except Fault RunState
  | 0, s => .ok s
  | n + 1, s =>
    match rolloutLoop rnd 11 (ttt_copy_board s.tmp s.board) currealplayer (-1) s.next [] with
    | .error e => .error e
    | .ok g =>
      match scoreRollout s.wincount g.winner currealplayer g.firstmove with
      | .error e => .error e
      | .ok wincount1 =>
        playRoundsState rnd currealplayer n ⟨s.board, g.tmp, wincount1, g.next, s.log ++ [g]⟩

/-- `ttt_run_random_games` (lines 151-231) with its effect on memory: the returned
position and the final state.  `tmp` is the uninitialised local of line 158. -/
def ttt_run_random_games_state (rnd : Nat → Nat) (k : Nat) (board tmp : TTTBoard)
    (currealplayer : TTTPiece) (count : Int) : Except Fault (Int × RunState) :=
  if (initScores board).2 = false then .ok (-1, ⟨board, tmp, (initScores board).1, k, []⟩)
  else
    match playRoundsState rnd currealplayer count.toNat
        ⟨board, tmp, (initScores board).1, k, []⟩ with
    | .error e => .error e
    | .ok s =>
      match selectBest rnd s.next s.wincount with
      | .error e => .error e
      | .ok r => .ok (r.1, ⟨s.board, s.tmp, s.wincount, r.2, s.log⟩)

/-- Number of rollouts `ttt_run_random_games` ran. -/
def rolloutsRun (rnd : Nat → Nat) (k : Nat) (board tmp : TTTBoard)
    (currealplayer : TTTPiece) (count : Int) : Except Fault Nat :=
  match ttt_run_random_games_state rnd k board tmp currealplayer count with
  | .error e => .error e
  | .ok r => .ok r.2.log.length

/-- A full board without a completed line. -/
def drawnBoard : TTTBoard :=
  mkBoard MARK_X MARK_O MARK_X MARK_X MARK_O MARK_O MARK_O MARK_X MARK_X

/-- Whether some addition `wincount[firstmove] += points` of the `n` rounds has
an exact sum outside the range of `int`. -/
def overflowInRounds (rnd : Nat → Nat) (board : TTTBoard) (currealplayer : TTTPiece) :
    Nat → (Fin 9 → Int) → Nat → Bool
  | 0, _, _ => false
  | n + 1, wincount, k =>
    match rollout rnd k board currealplayer with
    | .error _ => false
    | .ok g =>
      match toIdx g.firstmove with
      | none => false
      | some i =>
        decide (wincount i + points g.winner currealplayer < INT_MIN ∨
            INT_MAX < wincount i + points g.winner currealplayer) ||
          overflowInRounds rnd board currealplayer n
            (Function.update wincount i
              (wrapInt (wincount i + points g.winner currealplayer))) g.next

/-- Exchange of the two players' marks. -/
def swapPiece : TTTPiece → TTTPiece
  | MARK_NONE => MARK_NONE
  | MARK_X => MARK_O
  | MARK_O => MARK_X

/-- The board with every `MARK_X` replaced by `MARK_O` and vice versa. -/
def swapBoard (board : TTTBoard) : TTTBoard :=
  { p := fun i => swapPiece (board.p i) }

/-- The result of a rollout with the two players exchanged. -/
def swapRollout (g : Rollout) : Rollout :=
  ⟨swapPiece g.winner, g.firstmove, g.next, swapBoard g.tmp,
    g.placed.map (fun m => (m.1, swapPiece m.2))⟩

/-- A board with the single free cell 8 and no completed line. -/
def oneFreeBoard : TTTBoard :=
  mkBoard MARK_X MARK_O MARK_X MARK_X MARK_O MARK_O MARK_O MARK_X MARK_NONE

/-! ## Loop ranges and index conversions -/

theorem mem_cells (i : Fin 9) : i ∈ cells := by
  revert i; decide

theorem toIdx_ofIdx (i : Fin 9) : toIdx (ofIdx i) = some i := by
  revert i; decide

theorem ofIdx_ne_neg_one (i : Fin 9) : ofIdx i ≠ -1 := by
  revert i; decide

theorem ofIdx_injective {i j : Fin 9} (h : ofIdx i = ofIdx j) : i = j := by
  revert i j; decide

theorem toIdx_neg_one : toIdx (-1) = none := by decide

theorem toIdx_eq_some {z : Int} {i : Fin 9} (h : toIdx z = some i) : z = ofIdx i := by
  unfold toIdx at h
  split at h
  · rename_i hz
    simp only [Option.some.injEq] at h
    subst h
    simp only [ofIdx]
    omega
  · simp at h

theorem collectCandidates_eq (keep : Fin 9 → Bool) (l cand : List (Fin 9)) :
    collectCandidates keep l cand = cand ++ l.filter keep := by
  induction l generalizing cand with
  | nil => simp [collectCandidates]
  | cons i rest ih =>
    simp only [collectCandidates, ih, List.filter_cons]
    by_cases hk : keep i = true <;> simp [hk]

theorem emptyCandidates_eq (board : TTTBoard) :
    emptyCandidates board = cells.filter (fun i => decide (board.p i = MARK_NONE)) := by
  simp [emptyCandidates, collectCandidates_eq]

theorem mem_emptyCandidates (board : TTTBoard) (i : Fin 9) :
    i ∈ emptyCandidates board ↔ board.p i = MARK_NONE := by
  simp [emptyCandidates_eq, mem_cells]

theorem cells_sorted : cells.Pairwise (· < ·) := by decide

theorem emptyCandidates_sorted (board : TTTBoard) :
    (emptyCandidates board).Pairwise (· < ·) := by
  rw [emptyCandidates_eq]
  exact cells_sorted.sublist (List.filter_sublist _)

theorem finRange_nine : List.finRange 9 = cells := by decide

theorem legalMoves_eq (board : TTTBoard) : legalMoves board = emptyCandidates board := by
  rw [legalMoves, emptyCandidates_eq, finRange_nine]

/-! ## `ttt_check_win` -/

theorem check_win_line (board : TTTBoard) (h : ttt_check_win board ≠ MARK_NONE) :
    ∃ l ∈ winLines, lineHeldBy board l (ttt_check_win board) := by
  have key : ttt_check_win board = MARK_NONE ∨
      ∃ l ∈ winLines, lineHeldBy board l (ttt_check_win board) := by
    unfold ttt_check_win
    dsimp only
    by_cases h1 : board.p 0 = board.p 1 ∧ board.p 1 = board.p 2
    · rw [if_pos h1]
      exact Or.inr ⟨(0, 1, 2), by decide, h1.1.trans h1.2, h1.2, rfl⟩
    rw [if_neg h1]
    by_cases h2 : board.p 3 = board.p 4 ∧ board.p 4 = board.p 5
    · rw [if_pos h2]
      exact Or.inr ⟨(3, 4, 5), by decide, h2.1.trans h2.2, h2.2, rfl⟩
    rw [if_neg h2]
    by_cases h3 : board.p 6 = board.p 7 ∧ board.p 7 = board.p 8
    · rw [if_pos h3]
      exact Or.inr ⟨(6, 7, 8), by decide, h3.1.trans h3.2, h3.2, rfl⟩
    rw [if_neg h3]
    by_cases h4 : board.p 0 = board.p 3 ∧ board.p 3 = board.p 6
    · rw [if_pos h4]
      exact Or.inr ⟨(0, 3, 6), by decide, h4.1.trans h4.2, h4.2, rfl⟩
    rw [if_neg h4]
    by_cases h5 : board.p 1 = board.p 4 ∧ board.p 4 = board.p 7
    · rw [if_pos h5]
      exact Or.inr ⟨(1, 4, 7), by decide, h5.1.trans h5.2, h5.2, rfl⟩
    rw [if_neg h5]
    by_cases h6 : board.p 2 = board.p 5 ∧ board.p 5 = board.p 8
    · rw [if_pos h6]
      exact Or.inr ⟨(2, 5, 8), by decide, h6.1.trans h6.2, h6.2, rfl⟩
    rw [if_neg h6]
    by_cases h7 : board.p 0 = board.p 4 ∧ board.p 4 = board.p 8
    · rw [if_pos h7]
      exact Or.inr ⟨(0, 4, 8), by decide, h7.1.trans h7.2, h7.2, rfl⟩
    rw [if_neg h7]
    by_cases h8 : board.p 2 = board.p 4 ∧ board.p 4 = board.p 6
    · rw [if_pos h8]
      exact Or.inr ⟨(2, 4, 6), by decide, h8.1.trans h8.2, h8.2, rfl⟩
    rw [if_neg h8]
    exact Or.inl rfl
  exact key.resolve_left h

/-- C3 (evaluation of the code): on the boards whose middle row, bottom row,
middle column or right column is held by one player and whose other cells are
empty, `ttt_check_win` returns `MARK_NONE`: an all-empty line tested earlier
(row 0-1-2 or column 0-3-6) ends the function first.  The same happens on the
position `[_, _, _, X, X, X, O, O, _]`, which alternate play from the empty board
reaches. -/
theorem check_win_misses_line :
    ttt_check_win (mkBoard MARK_NONE MARK_NONE MARK_NONE MARK_X MARK_X MARK_X MARK_O MARK_O
      MARK_NONE) = MARK_NONE ∧
    ttt_check_win (lineBoard (3, 4, 5) MARK_X) = MARK_NONE ∧
    ttt_check_win (lineBoard (6, 7, 8) MARK_X) = MARK_NONE ∧
    ttt_check_win (lineBoard (1, 4, 7) MARK_X) = MARK_NONE ∧
    ttt_check_win (lineBoard (2, 5, 8) MARK_X) = MARK_NONE ∧
    ttt_check_win (lineBoard (3, 4, 5) MARK_O) = MARK_NONE ∧
    ttt_check_win (lineBoard (6, 7, 8) MARK_O) = MARK_NONE ∧
    ttt_check_win (lineBoard (1, 4, 7) MARK_O) = MARK_NONE ∧
    ttt_check_win (lineBoard (2, 5, 8) MARK_O) = MARK_NONE := by
  decide

/-- C4: on a board where none of the eight lines consists of three equal
non-empty marks, `ttt_check_win` returns `MARK_NONE`. -/
theorem check_win_none_of_no_line (board : TTTBoard)
    (h : ∀ l ∈ winLines, ∀ m, m ≠ MARK_NONE → ¬ lineHeldBy board l m) :
    ttt_check_win board = MARK_NONE := by
  by_contra hne
  obtain ⟨l, hl, hheld⟩ := check_win_line board hne
  exact h l hl _ hne hheld

theorem check_win_none_of_no_line_witness :
    ttt_check_win (mkBoard MARK_X MARK_O MARK_X MARK_X MARK_O MARK_O MARK_O MARK_X MARK_X)
      = MARK_NONE :=
  check_win_none_of_no_line _ (by
    intro l hl m hm
    revert m
    simp only [winLines, List.mem_cons, List.mem_singleton, List.not_mem_nil, or_false] at hl
    rcases hl with rfl | rfl | rfl | rfl | rfl | rfl | rfl | rfl <;> decide)

/-! ## `ttt_board_full` -/

theorem boardFullLoop_eq_one (board : TTTBoard) (l : List (Fin 9)) :
    boardFullLoop board l = 1 ↔ ∀ i ∈ l, board.p i ≠ MARK_NONE := by
  induction l with
  | nil => simp [boardFullLoop]
  | cons i rest ih =>
    simp only [boardFullLoop, List.mem_cons, forall_eq_or_imp]
    by_cases hi : board.p i = MARK_NONE
    · simp [hi]
    · simp [hi, ih]

theorem boardFullLoop_zero_or_one (board : TTTBoard) (l : List (Fin 9)) :
    boardFullLoop board l = 0 ∨ boardFullLoop board l = 1 := by
  induction l with
  | nil => simp [boardFullLoop]
  | cons i rest ih =>
    simp only [boardFullLoop]
    split_ifs
    · left; rfl
    · exact ih

/-- C9: `ttt_board_full` returns 1 (true) exactly when no cell of the board is
`MARK_NONE`, and returns 0 (false) otherwise. -/
theorem board_full_iff (board : TTTBoard) :
    (ttt_board_full board = 1 ↔ ∀ i, board.p i ≠ MARK_NONE) ∧
    (ttt_board_full board ≠ 0 ↔ ∀ i, board.p i ≠ MARK_NONE) := by
  have h1 : ttt_board_full board = 1 ↔ ∀ i, board.p i ≠ MARK_NONE := by
    unfold ttt_board_full
    rw [boardFullLoop_eq_one]
    exact ⟨fun h i => h i (mem_cells i), fun h i _ => h i⟩
  refine ⟨h1, ?_⟩
  rw [← h1]
  rcases boardFullLoop_zero_or_one board cells with h | h <;>
    simp [ttt_board_full, h]

/-! ## `ttt_choose_random_move` -/

theorem legalMoves_sorted (board : TTTBoard) : (legalMoves board).Pairwise (· < ·) := by
  rw [legalMoves_eq]; exact emptyCandidates_sorted board

theorem mem_legalMoves (board : TTTBoard) (i : Fin 9) :
    i ∈ legalMoves board ↔ board.p i = MARK_NONE := by
  rw [legalMoves_eq]; exact mem_emptyCandidates board i

theorem choose_random_move_of_empty (rnd : Nat → Nat) (k : Nat) (board : TTTBoard)
    (h : (emptyCandidates board).length = 0) :
    ttt_choose_random_move rnd k board = (-1, k) := by
  unfold ttt_choose_random_move
  simp only [h, dite_true]

theorem choose_random_move_of_pos (rnd : Nat → Nat) (k : Nat) (board : TTTBoard)
    (h : (emptyCandidates board).length ≠ 0) :
    ttt_choose_random_move rnd k board =
      (ofIdx ((emptyCandidates board).get ⟨rnd k % (emptyCandidates board).length,
        Nat.mod_lt _ (Nat.pos_of_ne_zero h)⟩), k + 1) := by
  unfold ttt_choose_random_move
  simp only [h, dite_false]

theorem choose_random_move_mem (rnd : Nat → Nat) (k : Nat) (board : TTTBoard)
    (h : (emptyCandidates board).length ≠ 0) :
    ∃ i, board.p i = MARK_NONE ∧ ttt_choose_random_move rnd k board = (ofIdx i, k + 1) := by
  refine ⟨_, ?_, choose_random_move_of_pos rnd k board h⟩
  exact (mem_emptyCandidates board _).1 (List.get_mem _ _ _)

/-- C10: with `k` the number of empty cells (the length of `legalMoves`, the
ascending list of exactly the empty indices), `ttt_choose_random_move` returns
`-1` iff `k = 0`; otherwise it returns entry `rand() % k` of that list, which is
the index of an empty cell, and every empty cell is returned for some value of
`rand()`. -/
theorem choose_random_move_spec (rnd : Nat → Nat) (k : Nat) (board : TTTBoard) :
    (legalMoves board).Pairwise (· < ·) ∧
    (∀ i, i ∈ legalMoves board ↔ board.p i = MARK_NONE) ∧
    (legalMoves board).length = (Finset.univ.filter (fun i => board.p i = MARK_NONE)).card ∧
    ((ttt_choose_random_move rnd k board).1 = -1 ↔ (legalMoves board).length = 0) ∧
    (∀ h : (legalMoves board).length ≠ 0,
      (ttt_choose_random_move rnd k board).1 =
        ofIdx ((legalMoves board).get ⟨rnd k % (legalMoves board).length,
          Nat.mod_lt _ (Nat.pos_of_ne_zero h)⟩)) ∧
    ((legalMoves board).length ≠ 0 →
      ∃ i, board.p i = MARK_NONE ∧ (ttt_choose_random_move rnd k board).1 = ofIdx i) ∧
    (∀ i, board.p i = MARK_NONE →
      ∃ r, ∀ rnd1 : Nat → Nat, rnd1 k = r →
        (ttt_choose_random_move rnd1 k board).1 = ofIdx i) := by
  refine ⟨legalMoves_sorted board, mem_legalMoves board, ?_, ?_, ?_, ?_, ?_⟩
  · rw [← List.toFinset_card_of_nodup (legalMoves_sorted board).nodup]
    congr 1
    ext i
    simp [mem_legalMoves]
  · rw [legalMoves_eq]
    by_cases h : (emptyCandidates board).length = 0
    · simp [choose_random_move_of_empty rnd k board h, h]
    · rw [choose_random_move_of_pos rnd k board h]
      simp only [h, iff_false]
      exact ofIdx_ne_neg_one _
  · rw [legalMoves_eq]
    intro h
    rw [choose_random_move_of_pos rnd k board h]
  · rw [legalMoves_eq]
    intro h
    obtain ⟨i, hi, he⟩ := choose_random_move_mem rnd k board h
    exact ⟨i, hi, by rw [he]⟩
  · intro i hi
    have hmem : i ∈ emptyCandidates board := (mem_emptyCandidates board i).2 hi
    obtain ⟨n, hn⟩ := List.get_of_mem hmem
    have hlen : (emptyCandidates board).length ≠ 0 := by
      have := n.isLt; omega
    refine ⟨n, ?_⟩
    intro rnd1 hr
    rw [choose_random_move_of_pos rnd1 k board hlen]
    simp only
    congr 1
    rw [← hn]
    congr 1
    apply Fin.ext
    simp only [hr]
    exact Nat.mod_eq_of_lt n.isLt

theorem choose_random_move_spec_witness :
    (ttt_choose_random_move (fun _ => 7) 0
        (mkBoard MARK_X MARK_NONE MARK_O MARK_NONE MARK_X MARK_NONE MARK_NONE MARK_O
          MARK_X)).1 = ofIdx 6 :=
  ((choose_random_move_spec (fun _ => 7) 0
      (mkBoard MARK_X MARK_NONE MARK_O MARK_NONE MARK_X MARK_NONE MARK_NONE MARK_O
        MARK_X)).2.2.2.2.1 (by decide)).trans (by decide)

/-! ## Initialisation of the score vector -/

theorem initLoop_flag (board : TTTBoard) (l : List (Fin 9)) (s : (Fin 9 → Int) × Bool) :
    (initLoop board l s).2 = (s.2 || l.any (fun i => decide (board.p i = MARK_NONE))) := by
  induction l generalizing s with
  | nil => simp [initLoop]
  | cons i rest ih =>
    simp only [initLoop, ih, List.any_cons]
    by_cases hi : board.p i = MARK_NONE <;> simp [hi]

theorem initLoop_scores (board : TTTBoard) (l : List (Fin 9)) (s : (Fin 9 → Int) × Bool)
    (i : Fin 9) :
    (initLoop board l s).1 i =
      if i ∈ l then (if board.p i = MARK_NONE then 0 else INT_MIN) else s.1 i := by
  induction l generalizing s with
  | nil => simp [initLoop]
  | cons j rest ih =>
    simp only [initLoop, ih, List.mem_cons]
    by_cases hr : i ∈ rest
    · simp [hr]
    · by_cases hij : i = j
      · subst hij
        by_cases hi : board.p i = MARK_NONE <;> simp [hr, hi]
      · by_cases hj : board.p j = MARK_NONE <;> simp [hr, hij, hj, Function.update_noteq hij]

theorem initScores_flag (board : TTTBoard) :
    (initScores board).2 = true ↔ ∃ i, board.p i = MARK_NONE := by
  simp [initScores, initLoop_flag, mem_cells]

theorem initScores_flag_false (board : TTTBoard) :
    (initScores board).2 = false ↔ ∀ i, board.p i ≠ MARK_NONE := by
  rw [← Bool.not_eq_true, initScores_flag]
  simp

theorem initScores_apply (board : TTTBoard) (i : Fin 9) :
    (initScores board).1 i = if board.p i = MARK_NONE then 0 else INT_MIN := by
  simp [initScores, initLoop_scores, mem_cells]

/-! ## `ttt_run_random_games` on a board without a free cell -/

/-- C2: on a board with no `MARK_NONE` cell (with or without a completed line),
for every player and every `count`, `ttt_run_random_games` returns `-1` and the
index of the next unread random value is unchanged: no rollout ran and `rand()`
was never called. -/
theorem run_random_games_full_board (rnd : Nat → Nat) (k : Nat) (board : TTTBoard)
    (currealplayer : TTTPiece) (count : Int) (h : ∀ i, board.p i ≠ MARK_NONE) :
    ttt_run_random_games rnd k board currealplayer count = .ok (-1, k) := by
  unfold ttt_run_random_games
  rw [if_pos ((initScores_flag_false board).2 h)]

theorem run_random_games_full_board_witness :
    ttt_run_random_games (fun i => i) 4
        (mkBoard MARK_X MARK_X MARK_X MARK_O MARK_O MARK_X MARK_O MARK_X MARK_O)
        MARK_O 30000 = .ok (-1, 4) ∧
    ttt_run_random_games (fun i => i) 4
        (mkBoard MARK_X MARK_O MARK_X MARK_X MARK_O MARK_O MARK_O MARK_X MARK_X)
        MARK_X 30000 = .ok (-1, 4) :=
  ⟨run_random_games_full_board _ _ _ _ _ (by decide),
   run_random_games_full_board _ _ _ _ _ (by decide)⟩

/-! ## One rollout (lines 174-190) -/

theorem numEmpty_eq_card (board : TTTBoard) :
    numEmpty board = (Finset.univ.filter (fun i => board.p i = MARK_NONE)).card := by
  unfold numEmpty
  rw [← List.toFinset_card_of_nodup (emptyCandidates_sorted board).nodup]
  congr 1
  ext i
  simp [mem_emptyCandidates]

theorem numEmpty_eq_zero (board : TTTBoard) :
    numEmpty board = 0 ↔ ∀ i, board.p i ≠ MARK_NONE := by
  unfold numEmpty
  rw [List.length_eq_zero, List.eq_nil_iff_forall_not_mem]
  simp [mem_emptyCandidates]

theorem numEmpty_le_nine (board : TTTBoard) : numEmpty board ≤ 9 := by
  unfold numEmpty
  rw [emptyCandidates_eq]
  exact (List.length_filter_le _ _).trans (by decide)

theorem setCell_none (tmp : TTTBoard) (i : Fin 9) (h : tmp.p i = MARK_NONE) :
    setCell tmp i MARK_NONE = tmp := by
  apply TTTBoard.ext
  funext j
  by_cases hj : j = i
  · subst hj; simp [setCell, h]
  · simp [setCell, Function.update_noteq hj]

theorem numEmpty_setCell (tmp : TTTBoard) (i : Fin 9) (v : TTTPiece)
    (h : tmp.p i = MARK_NONE) (hv : v ≠ MARK_NONE) :
    numEmpty (setCell tmp i v) + 1 = numEmpty tmp := by
  rw [numEmpty_eq_card, numEmpty_eq_card]
  have he : Finset.univ.filter (fun j => (setCell tmp i v).p j = MARK_NONE) =
      (Finset.univ.filter (fun j => tmp.p j = MARK_NONE)).erase i := by
    ext j
    by_cases hj : j = i
    · subst hj; simp [setCell, hv]
    · simp [setCell, Function.update_noteq hj, hj]
  rw [he, Finset.card_erase_of_mem (by simp [h])]
  have hpos : 0 < (Finset.univ.filter (fun j => tmp.p j = MARK_NONE)).card :=
    Finset.card_pos.2 ⟨i, by simp [h]⟩
  omega

theorem nextPlayer_ne_none (player : TTTPiece) : nextPlayer player ≠ MARK_NONE := by
  cases player <;> decide

theorem rolloutLoop_win (rnd : Nat → Nat) (fuel : Nat) (tmp : TTTBoard) (player : TTTPiece)
    (fm : Int) (k : Nat) (placed : List (Fin 9 × TTTPiece))
    (h : ttt_check_win tmp ≠ MARK_NONE) :
    rolloutLoop rnd (fuel + 1) tmp player fm k placed =
      .ok ⟨ttt_check_win tmp, fm, k, tmp, placed⟩ := by
  rw [rolloutLoop]
  simp only [h, ne_eq, not_false_eq_true, if_true]

theorem rolloutLoop_full (rnd : Nat → Nat) (fuel : Nat) (tmp : TTTBoard) (player : TTTPiece)
    (fm : Int) (k : Nat) (placed : List (Fin 9 × TTTPiece))
    (h : ttt_check_win tmp = MARK_NONE) (he : numEmpty tmp = 0) :
    rolloutLoop rnd (fuel + 1) tmp player fm k placed =
      .ok ⟨MARK_NONE, fm, k, tmp, placed⟩ := by
  rw [rolloutLoop]
  simp only [h, ne_eq, not_true_eq_false, if_false, choose_random_move_of_empty rnd k tmp he,
    if_true]

theorem rolloutLoop_move (rnd : Nat → Nat) (fuel : Nat) (tmp : TTTBoard) (player : TTTPiece)
    (fm : Int) (k : Nat) (placed : List (Fin 9 × TTTPiece))
    (h : ttt_check_win tmp = MARK_NONE) (i : Fin 9)
    (hc : ttt_choose_random_move rnd k tmp = (ofIdx i, k + 1)) (hi : tmp.p i = MARK_NONE) :
    rolloutLoop rnd (fuel + 1) tmp player fm k placed =
      rolloutLoop rnd fuel (setCell tmp i player) (nextPlayer player)
        (if fm = -1 then ofIdx i else fm) (k + 1) (placed ++ [(i, player)]) := by
  rw [rolloutLoop]
  simp only [h, ne_eq, not_true_eq_false, if_false, hc, ofIdx_ne_neg_one, toIdx_ofIdx, hi,
    nextPlayer]

/-- The loop stops within `numEmpty tmp + 1` tests (one more when the mover is
`MARK_NONE`), and an already recorded first move is kept. -/
theorem rolloutLoop_ok (rnd : Nat → Nat) (fuel : Nat) (tmp : TTTBoard) (player : TTTPiece)
    (fm : Int) (k : Nat) (placed : List (Fin 9 × TTTPiece))
    (hfuel : numEmpty tmp + (if player = MARK_NONE then 1 else 0) < fuel) :
    ∃ g, rolloutLoop rnd fuel tmp player fm k placed = .ok g ∧
      (fm ≠ -1 → g.firstmove = fm) ∧ k ≤ g.next := by
  induction fuel generalizing tmp player fm k placed with
  | zero => omega
  | succ fuel ih =>
    by_cases hw : ttt_check_win tmp = MARK_NONE
    · by_cases he : numEmpty tmp = 0
      · exact ⟨_, rolloutLoop_full rnd fuel tmp player fm k placed hw he, fun _ => rfl,
          le_refl _⟩
      · obtain ⟨i, hi, hc⟩ := choose_random_move_mem rnd k tmp he
        rw [rolloutLoop_move rnd fuel tmp player fm k placed hw i hc hi]
        have hfuel1 : numEmpty (setCell tmp i player) +
            (if nextPlayer player = MARK_NONE then 1 else 0) < fuel := by
          rw [if_neg (nextPlayer_ne_none player)]
          by_cases hp : player = MARK_NONE
          · subst hp
            rw [setCell_none tmp i hi]
            simp only [if_true] at hfuel
            omega
          · have := numEmpty_setCell tmp i player hi hp
            rw [if_neg hp] at hfuel
            omega
        obtain ⟨g, hg, hfm, hk⟩ := ih (setCell tmp i player) (nextPlayer player)
          (if fm = -1 then ofIdx i else fm) (k + 1) (placed ++ [(i, player)]) hfuel1
        refine ⟨g, hg, ?_, by omega⟩
        intro hne
        rw [if_neg hne] at hfm
        exact hfm hne
    · exact ⟨_, rolloutLoop_win rnd fuel tmp player fm k placed hw, fun _ => rfl, le_refl _⟩

/-- A rollout from a board without a detected win and with a free cell records
as first move the cell drawn by its first call of `rand()`; that cell is empty
on the board. -/
theorem rollout_firstmove (rnd : Nat → Nat) (k : Nat) (board : TTTBoard)
    (currealplayer : TTTPiece) (hw : ttt_check_win board = MARK_NONE)
    (he : numEmpty board ≠ 0) :
    ∃ g i, rollout rnd k board currealplayer = .ok g ∧ g.firstmove = ofIdx i ∧
      board.p i = MARK_NONE ∧ ttt_choose_random_move rnd k board = (ofIdx i, k + 1) ∧
      k < g.next := by
  obtain ⟨i, hi, hc⟩ := choose_random_move_mem rnd k board he
  unfold rollout ttt_copy_board
  rw [rolloutLoop_move rnd 10 board currealplayer (-1) k [] hw i hc hi]
  have hfuel : numEmpty (setCell board i currealplayer) +
      (if nextPlayer currealplayer = MARK_NONE then 1 else 0) < 10 := by
    rw [if_neg (nextPlayer_ne_none currealplayer)]
    have h9 := numEmpty_le_nine board
    by_cases hp : currealplayer = MARK_NONE
    · subst hp
      rw [setCell_none board i hi]
      omega
    · have := numEmpty_setCell board i currealplayer hi hp
      omega
  obtain ⟨g, hg, hfm, hk⟩ := rolloutLoop_ok rnd 10 (setCell board i currealplayer)
    (nextPlayer currealplayer) (if (-1 : Int) = -1 then ofIdx i else -1) (k + 1)
    ([] ++ [(i, currealplayer)]) hfuel
  refine ⟨g, i, hg, ?_, hi, hc, by omega⟩
  rw [if_pos rfl] at hfm
  exact hfm (ofIdx_ne_neg_one i)

/-- One test of the `while` loop: it stops on a detected win, stops on a full
board, or places the mover's mark on the drawn empty cell and continues. -/
theorem rolloutLoop_cases (rnd : Nat → Nat) (fuel : Nat) (tmp : TTTBoard) (player : TTTPiece)
    (fm : Int) (k : Nat) (placed : List (Fin 9 × TTTPiece)) :
    (ttt_check_win tmp ≠ MARK_NONE ∧
      rolloutLoop rnd (fuel + 1) tmp player fm k placed =
        .ok ⟨ttt_check_win tmp, fm, k, tmp, placed⟩) ∨
    (ttt_check_win tmp = MARK_NONE ∧ numEmpty tmp = 0 ∧
      rolloutLoop rnd (fuel + 1) tmp player fm k placed =
        .ok ⟨MARK_NONE, fm, k, tmp, placed⟩) ∨
    (ttt_check_win tmp = MARK_NONE ∧ numEmpty tmp ≠ 0 ∧
      ∃ i, tmp.p i = MARK_NONE ∧ ttt_choose_random_move rnd k tmp = (ofIdx i, k + 1) ∧
        rolloutLoop rnd (fuel + 1) tmp player fm k placed =
          rolloutLoop rnd fuel (setCell tmp i player) (nextPlayer player)
            (if fm = -1 then ofIdx i else fm) (k + 1) (placed ++ [(i, player)])) := by
  by_cases hw : ttt_check_win tmp = MARK_NONE
  · by_cases he : numEmpty tmp = 0
    · exact Or.inr (Or.inl ⟨hw, he, rolloutLoop_full rnd fuel tmp player fm k placed hw he⟩)
    · obtain ⟨i, hi, hc⟩ := choose_random_move_mem rnd k tmp he
      exact Or.inr (Or.inr ⟨hw, he, i, hi, hc,
        rolloutLoop_move rnd fuel tmp player fm k placed hw i hc hi⟩)
  · exact Or.inl ⟨hw, rolloutLoop_win rnd fuel tmp player fm k placed hw⟩

/-- What a finished `while` loop leaves behind: the random index only grows, a
recorded first move is kept, and the placements extend the ghost record; when
the loop made a placement and no first move was recorded before, `firstmove` is
the first placed cell, which was empty and received the mover's mark. -/
theorem rolloutLoop_result (rnd : Nat → Nat) (fuel : Nat) (tmp : TTTBoard)
    (player : TTTPiece) (fm : Int) (k : Nat) (placed : List (Fin 9 × TTTPiece))
    (g : Rollout) (h : rolloutLoop rnd fuel tmp player fm k placed = .ok g) :
    k ≤ g.next ∧ (fm ≠ -1 → g.firstmove = fm) ∧
    ∃ t, g.placed = placed ++ t ∧ (t = [] → g.firstmove = fm ∧ g.next = k) ∧
      ∀ i q rest, t = (i, q) :: rest →
        q = player ∧ tmp.p i = MARK_NONE ∧ k < g.next ∧
        ttt_choose_random_move rnd k tmp = (ofIdx i, k + 1) ∧
        (fm = -1 → g.firstmove = ofIdx i) := by
  induction fuel generalizing tmp player fm k placed with
  | zero => simp [rolloutLoop] at h
  | succ fuel ih =>
    rcases rolloutLoop_cases rnd fuel tmp player fm k placed with
      ⟨_, hr⟩ | ⟨_, _, hr⟩ | ⟨_, _, i, hi, hc, hr⟩
    · rw [hr] at h
      simp only [Except.ok.injEq] at h
      subst h
      exact ⟨le_refl _, fun _ => rfl, [], by simp, fun _ => ⟨rfl, rfl⟩, by simp⟩
    · rw [hr] at h
      simp only [Except.ok.injEq] at h
      subst h
      exact ⟨le_refl _, fun _ => rfl, [], by simp, fun _ => ⟨rfl, rfl⟩, by simp⟩
    · rw [hr] at h
      obtain ⟨hk, hfm, t, ht, _, _⟩ := ih _ _ _ _ _ h
      have hfirst : g.firstmove = if fm = -1 then ofIdx i else fm := by
        apply hfm
        by_cases hne : fm = -1
        · rw [if_pos hne]; exact ofIdx_ne_neg_one i
        · rw [if_neg hne]; exact hne
      refine ⟨by omega, fun hne => by rw [hfirst, if_neg hne], (i, player) :: t, ?_, ?_, ?_⟩
      · rw [ht]; simp
      · intro hnil; simp at hnil
      · intro i1 q rest heq
        simp only [List.cons.injEq, Prod.mk.injEq] at heq
        obtain ⟨⟨rfl, rfl⟩, _⟩ := heq
        exact ⟨rfl, hi, by omega, hc, fun hm => by rw [hfirst, if_pos hm]⟩

theorem rollout_result (rnd : Nat → Nat) (k : Nat) (board : TTTBoard)
    (currealplayer : TTTPiece) (g : Rollout)
    (h : rollout rnd k board currealplayer = .ok g) :
    k ≤ g.next ∧
    ((g.placed = [] ∧ g.firstmove = -1 ∧ g.next = k) ∨
     ∃ i rest, g.placed = (i, currealplayer) :: rest ∧ board.p i = MARK_NONE ∧
       g.firstmove = ofIdx i ∧ k < g.next ∧
       ttt_choose_random_move rnd k board = (ofIdx i, k + 1)) := by
  unfold rollout ttt_copy_board at h
  obtain ⟨hk, _, t, ht, hnil, hcons⟩ := rolloutLoop_result rnd _ _ _ _ _ _ g h
  refine ⟨hk, ?_⟩
  rw [List.nil_append] at ht
  cases t with
  | nil => exact Or.inl ⟨ht, (hnil rfl).1, (hnil rfl).2⟩
  | cons x rest =>
    obtain ⟨i, q⟩ := x
    obtain ⟨hq, hi, hlt, hc, hfm⟩ := hcons i q rest rfl
    subst hq
    exact Or.inr ⟨i, rest, ht, hi, hfm rfl, hlt, hc⟩

/-- The first move recorded by a finished rollout is `-1` or an empty cell of
the board. -/
theorem rollout_firstmove_empty (rnd : Nat → Nat) (k : Nat) (board : TTTBoard)
    (currealplayer : TTTPiece) (g : Rollout) (i : Fin 9)
    (h : rollout rnd k board currealplayer = .ok g) (hi : toIdx g.firstmove = some i) :
    board.p i = MARK_NONE := by
  rcases (rollout_result rnd k board currealplayer g h).2 with
    ⟨_, hfm, _⟩ | ⟨i1, _, _, hi1, hfm, _⟩
  · rw [hfm, toIdx_neg_one] at hi; simp at hi
  · rw [hfm, toIdx_ofIdx] at hi
    simp only [Option.some.injEq] at hi
    subst hi
    exact hi1

/-! ## Scoring one rollout (lines 192-201) -/

theorem wrapInt_of_range (x : Int) (h1 : INT_MIN ≤ x) (h2 : x ≤ INT_MAX) : wrapInt x = x := by
  unfold INT_MIN at h1
  unfold INT_MAX at h2
  unfold wrapInt
  omega

theorem wrapInt_range (x : Int) : INT_MIN ≤ wrapInt x ∧ wrapInt x ≤ INT_MAX := by
  unfold INT_MIN INT_MAX wrapInt
  omega

theorem points_range (winner currealplayer : TTTPiece) :
    -10 ≤ points winner currealplayer ∧ points winner currealplayer ≤ 1 := by
  unfold points WIN_POINTS LOSS_POINTS DRAW_POINTS
  split_ifs <;> omega

theorem scoreRollout_ofIdx (wincount : Fin 9 → Int) (winner currealplayer : TTTPiece)
    (i : Fin 9) :
    scoreRollout wincount winner currealplayer (ofIdx i) =
      .ok (Function.update wincount i
        (wrapInt (wincount i + points winner currealplayer))) := by
  unfold scoreRollout
  rw [toIdx_ofIdx]

theorem scoreRollout_ok (wincount wincount1 : Fin 9 → Int) (winner currealplayer : TTTPiece)
    (fm : Int)
    (h : scoreRollout wincount winner currealplayer fm = .ok wincount1) :
    ∃ i, fm = ofIdx i ∧
      wincount1 = Function.update wincount i
        (wrapInt (wincount i + points winner currealplayer)) := by
  unfold scoreRollout at h
  cases hi : toIdx fm with
  | none => rw [hi] at h; simp at h
  | some i =>
    rw [hi] at h
    simp only [Except.ok.injEq] at h
    exact ⟨i, toIdx_eq_some hi, h.symm⟩

/-! ## The rounds loop (lines 173-202) -/

theorem playRounds_succ (rnd : Nat → Nat) (board : TTTBoard) (currealplayer : TTTPiece)
    (n : Nat) (wincount wincount1 : Fin 9 → Int) (k : Nat) (g : Rollout)
    (hg : rollout rnd k board currealplayer = .ok g)
    (hs : scoreRollout wincount g.winner currealplayer g.firstmove = .ok wincount1) :
    playRounds rnd board currealplayer (n + 1) wincount k =
      playRounds rnd board currealplayer n wincount1 g.next := by
  rw [playRounds]
  simp only [hg, hs]

theorem playRounds_succ_ok (rnd : Nat → Nat) (board : TTTBoard) (currealplayer : TTTPiece)
    (n : Nat) (wincount : Fin 9 → Int) (k : Nat) (r : (Fin 9 → Int) × Nat)
    (h : playRounds rnd board currealplayer (n + 1) wincount k = .ok r) :
    ∃ g wincount1, rollout rnd k board currealplayer = .ok g ∧
      scoreRollout wincount g.winner currealplayer g.firstmove = .ok wincount1 ∧
      playRounds rnd board currealplayer n wincount1 g.next = .ok r := by
  rw [playRounds] at h
  cases hg : rollout rnd k board currealplayer with
  | error e => rw [hg] at h; simp at h
  | ok g =>
    rw [hg] at h
    simp only at h
    cases hs : scoreRollout wincount g.winner currealplayer g.firstmove with
    | error e => rw [hs] at h; simp at h
    | ok wincount1 =>
      rw [hs] at h
      exact ⟨g, wincount1, rfl, hs, h⟩

/-- One round from a board without a detected win and with a free cell: the
rollout finishes, and its points go to the entry of its first move. -/
theorem round_ok (rnd : Nat → Nat) (k : Nat) (board : TTTBoard) (currealplayer : TTTPiece)
    (wincount : Fin 9 → Int) (hw : ttt_check_win board = MARK_NONE)
    (he : numEmpty board ≠ 0) :
    ∃ g i, rollout rnd k board currealplayer = .ok g ∧ g.firstmove = ofIdx i ∧
      board.p i = MARK_NONE ∧ k < g.next ∧
      scoreRollout wincount g.winner currealplayer g.firstmove =
        .ok (Function.update wincount i
          (wrapInt (wincount i + points g.winner currealplayer))) := by
  obtain ⟨g, i, hg, hfm, hi, _, hk⟩ := rollout_firstmove rnd k board currealplayer hw he
  exact ⟨g, i, hg, hfm, hi, hk, by rw [hfm, scoreRollout_ofIdx]⟩

theorem playRounds_ok (rnd : Nat → Nat) (board : TTTBoard) (currealplayer : TTTPiece)
    (n : Nat) (wincount : Fin 9 → Int) (k : Nat) (hw : ttt_check_win board = MARK_NONE)
    (he : numEmpty board ≠ 0) :
    ∃ r, playRounds rnd board currealplayer n wincount k = .ok r := by
  induction n generalizing wincount k with
  | zero => exact ⟨_, rfl⟩
  | succ n ih =>
    obtain ⟨g, i, hg, _, _, _, hs⟩ := round_ok rnd k board currealplayer wincount hw he
    rw [playRounds_succ rnd board currealplayer n wincount _ k g hg hs]
    exact ih _ _

/-- Scores of occupied cells are never written by the rounds loop, and the
random index only grows. -/
theorem playRounds_occupied (rnd : Nat → Nat) (board : TTTBoard) (currealplayer : TTTPiece)
    (n : Nat) (wincount : Fin 9 → Int) (k : Nat) (r : (Fin 9 → Int) × Nat)
    (h : playRounds rnd board currealplayer n wincount k = .ok r) :
    k ≤ r.2 ∧ ∀ i, board.p i ≠ MARK_NONE → r.1 i = wincount i := by
  induction n generalizing wincount k with
  | zero =>
    simp only [playRounds, Except.ok.injEq] at h
    subst h
    exact ⟨le_refl _, fun _ _ => rfl⟩
  | succ n ih =>
    obtain ⟨g, wincount1, hg, hs, hrest⟩ := playRounds_succ_ok rnd board currealplayer n _ _ _ h
    obtain ⟨hk, hocc⟩ := ih _ _ hrest
    obtain ⟨i, hfm, hw1⟩ := scoreRollout_ok _ _ _ _ _ hs
    have hi : board.p i = MARK_NONE :=
      rollout_firstmove_empty rnd k board currealplayer g i hg (by rw [hfm, toIdx_ofIdx])
    refine ⟨le_trans (rollout_result rnd k board currealplayer g hg).1 hk, ?_⟩
    intro j hj
    rw [hocc j hj, hw1]
    exact Function.update_noteq (fun hji => hj (by rw [hji]; exact hi)) _ _

/-- While ten times the number of rounds stays below `2^31`, the score of every
empty cell stays between `-10 * rounds` and `rounds`. -/
theorem playRounds_bounds (rnd : Nat → Nat) (board : TTTBoard) (currealplayer : TTTPiece)
    (n : Nat) (wincount : Fin 9 → Int) (k : Nat) (r : (Fin 9 → Int) × Nat) (m : Int)
    (h : playRounds rnd board currealplayer n wincount k = .ok r)
    (hm : 0 ≤ m) (hmn : 10 * (m + n) < 2147483648)
    (hb : ∀ i, board.p i = MARK_NONE → -10 * m ≤ wincount i ∧ wincount i ≤ m) :
    ∀ i, board.p i = MARK_NONE → -10 * (m + n) ≤ r.1 i ∧ r.1 i ≤ m + n := by
  induction n generalizing wincount k m with
  | zero =>
    simp only [playRounds, Except.ok.injEq] at h
    subst h
    simpa using hb
  | succ n ih =>
    obtain ⟨g, wincount1, hg, hs, hrest⟩ := playRounds_succ_ok rnd board currealplayer n _ _ _ h
    obtain ⟨i, hfm, hw1⟩ := scoreRollout_ok _ _ _ _ _ hs
    have hi : board.p i = MARK_NONE :=
      rollout_firstmove_empty rnd k board currealplayer g i hg (by rw [hfm, toIdx_ofIdx])
    have hpts := points_range g.winner currealplayer
    have hcast : ((n + 1 : Nat) : Int) = (n : Int) + 1 := by push_cast; rfl
    rw [hcast] at hmn ⊢
    have hnn : (0 : Int) ≤ n := Int.ofNat_nonneg n
    have hb1 : ∀ j, board.p j = MARK_NONE →
        -10 * (m + 1) ≤ wincount1 j ∧ wincount1 j ≤ m + 1 := by
      intro j hj
      rw [hw1]
      by_cases hji : j = i
      · subst hji
        rw [Function.update_same]
        have hbj := hb j hj
        rw [wrapInt_of_range _ (by unfold INT_MIN; omega) (by unfold INT_MAX; omega)]
        omega
      · rw [Function.update_noteq hji]
        have hbj := hb j hj
        omega
    have := ih wincount1 g.next (m + 1) hrest (by omega) (by omega) hb1
    intro j hj
    have hj1 := this j hj
    omega

/-- C8: one round (a rollout followed by its scoring).  Whenever the rollout
has a first placed cell `i`, that placement carries the perspective player's
mark, `firstmove = i`, and the round changes only `wincount[i]`: every other
entry is unchanged, and entry `i` receives `points`, which is `+1` when the winner
is the perspective player, `-10` when the winner is the other player and `0` when
there is no winner (the 32-bit sum is exact whenever it is representable).  From
a board without a detected win and with a free cell the rollout always finishes
with a first placed cell. -/
theorem round_scores_first_move (rnd : Nat → Nat) (k : Nat) (board : TTTBoard)
    (currealplayer : TTTPiece) (wincount : Fin 9 → Int) :
    (∀ (g : Rollout) (i : Fin 9) (q : TTTPiece) (rest : List (Fin 9 × TTTPiece)),
      rollout rnd k board currealplayer = .ok g → g.placed = (i, q) :: rest →
      q = currealplayer ∧ g.firstmove = ofIdx i ∧
      ∃ wincount1,
        playRounds rnd board currealplayer 1 wincount k = .ok (wincount1, g.next) ∧
        (∀ j, j ≠ i → wincount1 j = wincount j) ∧
        wincount1 i = wrapInt (wincount i + points g.winner currealplayer) ∧
        (INT_MIN ≤ wincount i + points g.winner currealplayer →
          wincount i + points g.winner currealplayer ≤ INT_MAX →
          wincount1 i = wincount i + points g.winner currealplayer) ∧
        (g.winner ≠ MARK_NONE → g.winner = currealplayer →
          points g.winner currealplayer = 1) ∧
        (g.winner ≠ MARK_NONE → g.winner ≠ currealplayer →
          points g.winner currealplayer = -10) ∧
        (g.winner = MARK_NONE → points g.winner currealplayer = 0)) ∧
    (ttt_check_win board = MARK_NONE → (∃ i, board.p i = MARK_NONE) →
      ∃ g i rest, rollout rnd k board currealplayer = .ok g ∧
        g.placed = (i, currealplayer) :: rest) := by
  constructor
  · intro g i q rest hg hplaced
    rcases (rollout_result rnd k board currealplayer g hg).2 with
      ⟨hnil, _, _⟩ | ⟨i1, rest1, hplaced1, _, hfm, _, _⟩
    · rw [hnil] at hplaced
      simp at hplaced
    · rw [hplaced1] at hplaced
      simp only [List.cons.injEq, Prod.mk.injEq] at hplaced
      obtain ⟨⟨hi, hq⟩, _⟩ := hplaced
      subst hi
      have hs : scoreRollout wincount g.winner currealplayer g.firstmove =
          .ok (Function.update wincount i1
            (wrapInt (wincount i1 + points g.winner currealplayer))) := by
        rw [hfm, scoreRollout_ofIdx]
      refine ⟨hq.symm, hfm,
        Function.update wincount i1 (wrapInt (wincount i1 + points g.winner currealplayer)),
        ?_, ?_, ?_, ?_, ?_, ?_, ?_⟩
      · rw [playRounds_succ rnd board currealplayer 0 wincount _ k g hg hs]
        rfl
      · intro j hj
        exact Function.update_noteq hj _ _
      · exact Function.update_same _ _ _
      · intro h1 h2
        rw [Function.update_same, wrapInt_of_range _ h1 h2]
      · intro h1 h2
        unfold points
        rw [if_pos h1, if_pos h2]
        rfl
      · intro h1 h2
        unfold points
        rw [if_pos h1, if_neg h2]
        rfl
      · intro h1
        unfold points
        rw [if_neg (fun hne => hne h1)]
        rfl
  · intro hw he
    have he1 : numEmpty board ≠ 0 := by
      rw [Ne, numEmpty_eq_zero]
      obtain ⟨i, hi⟩ := he
      exact fun hall => hall i hi
    obtain ⟨g, i, hg, hfm, _, _, _⟩ := rollout_firstmove rnd k board currealplayer hw he1
    rcases (rollout_result rnd k board currealplayer g hg).2 with
      ⟨_, hfm1, _⟩ | ⟨i1, rest, hplaced, _, _, _, _⟩
    · rw [hfm] at hfm1
      exact absurd hfm1 (ofIdx_ne_neg_one i)
    · exact ⟨g, i1, rest, hg, hplaced⟩

theorem round_scores_first_move_witness :
    ∃ g i rest wincount1,
      rollout (fun _ => 0) 0 (boardTwoRows MARK_X MARK_O) MARK_X = .ok g ∧
      g.placed = (i, MARK_X) :: rest ∧ g.firstmove = ofIdx i ∧
      playRounds (fun _ => 0) (boardTwoRows MARK_X MARK_O) MARK_X 1 (fun _ => 0) 0 =
        .ok (wincount1, g.next) ∧
      (∀ j, j ≠ i → wincount1 j = 0) ∧
      wincount1 i = wrapInt (0 + points g.winner MARK_X) :=
  (round_scores_first_move (fun _ => 0) 0 (boardTwoRows MARK_X MARK_O) MARK_X
      (fun _ => 0)).2 (by decide) ⟨2, by decide⟩ |>.elim fun g hg =>
    hg.elim fun i hi => hi.elim fun rest hrest =>
      ((round_scores_first_move (fun _ => 0) 0 (boardTwoRows MARK_X MARK_O) MARK_X
        (fun _ => 0)).1 g i MARK_X rest hrest.1 hrest.2).2.2.elim fun wincount1 hw1 =>
        ⟨g, i, rest, wincount1, hrest.1, hrest.2,
          ((round_scores_first_move (fun _ => 0) 0 (boardTwoRows MARK_X MARK_O) MARK_X
            (fun _ => 0)).1 g i MARK_X rest hrest.1 hrest.2).2.1,
          hw1.1, hw1.2.1, hw1.2.2.1⟩

theorem runScores_ok (rnd : Nat → Nat) (k : Nat) (board : TTTBoard)
    (currealplayer : TTTPiece) (count : Int)
    (he : ∃ i, board.p i = MARK_NONE)
    (hw : ttt_check_win board = MARK_NONE ∨ count ≤ 0) :
    ∃ r, runScores rnd k board currealplayer count = .ok r := by
  unfold runScores
  rcases hw with hw | hc
  · apply playRounds_ok rnd board currealplayer _ _ _ hw
    rw [Ne, numEmpty_eq_zero]
    obtain ⟨i, hi⟩ := he
    exact fun hall => hall i hi
  · rw [Int.toNat_eq_zero.2 hc]
    exact ⟨_, rfl⟩

/-- C6: whenever the rounds finish, the score entry of every occupied cell is
`INT_MIN`: the initialisation loop stores `INT_MIN` there, and the scoring step of
a rollout never writes an occupied cell's entry.  From a board without a
detected win and with a free cell the rounds always finish. -/
theorem occupied_scores_stay_sentinel (rnd : Nat → Nat) (k : Nat) (board : TTTBoard)
    (currealplayer : TTTPiece) (count : Int) :
    (∀ r, runScores rnd k board currealplayer count = .ok r →
      ∀ i, board.p i ≠ MARK_NONE → r.1 i = INT_MIN) ∧
    (∀ i, board.p i ≠ MARK_NONE → (initScores board).1 i = INT_MIN) ∧
    (∀ (wincount wincount1 : Fin 9 → Int) (k1 : Nat) (g : Rollout),
      rollout rnd k1 board currealplayer = .ok g →
      scoreRollout wincount g.winner currealplayer g.firstmove = .ok wincount1 →
      ∀ i, board.p i ≠ MARK_NONE → wincount1 i = wincount i) ∧
    (ttt_check_win board = MARK_NONE → (∃ i, board.p i = MARK_NONE) →
      ∃ r, runScores rnd k board currealplayer count = .ok r) := by
  have hinit : ∀ i, board.p i ≠ MARK_NONE → (initScores board).1 i = INT_MIN := by
    intro i hi
    rw [initScores_apply, if_neg hi]
  refine ⟨?_, hinit, ?_, ?_⟩
  · intro r hr i hi
    rw [(playRounds_occupied rnd board currealplayer _ _ _ r hr).2 i hi]
    exact hinit i hi
  · intro wincount wincount1 k1 g hg hs i hi
    obtain ⟨j, hfm, hw1⟩ := scoreRollout_ok _ _ _ _ _ hs
    have hj : board.p j = MARK_NONE :=
      rollout_firstmove_empty rnd k1 board currealplayer g j hg (by rw [hfm, toIdx_ofIdx])
    rw [hw1]
    exact Function.update_noteq (fun hij => hi (by rw [hij]; exact hj)) _ _
  · intro hw he
    exact runScores_ok rnd k board currealplayer count he (Or.inl hw)

theorem occupied_scores_stay_sentinel_witness :
    ∃ r, runScores (fun i => i) 0 (boardThreeMarks MARK_X MARK_O) MARK_X 30000 = .ok r ∧
      r.1 0 = INT_MIN ∧ r.1 1 = INT_MIN ∧ r.1 3 = INT_MIN :=
  (occupied_scores_stay_sentinel (fun i => i) 0 (boardThreeMarks MARK_X MARK_O) MARK_X
      30000).2.2.2 (by decide) ⟨2, by decide⟩ |>.elim fun r hr =>
    ⟨r, hr,
      (occupied_scores_stay_sentinel (fun i => i) 0 (boardThreeMarks MARK_X MARK_O) MARK_X
        30000).1 r hr 0 (by decide),
      (occupied_scores_stay_sentinel (fun i => i) 0 (boardThreeMarks MARK_X MARK_O) MARK_X
        30000).1 r hr 1 (by decide),
      (occupied_scores_stay_sentinel (fun i => i) 0 (boardThreeMarks MARK_X MARK_O) MARK_X
        30000).1 r hr 3 (by decide)⟩

/-! ## Choosing among the best scores (lines 204-230) -/

theorem maxLoop_ge_init (wincount : Fin 9 → Int) (l : List (Fin 9)) (m0 : Int) :
    m0 ≤ maxLoop wincount l m0 := by
  induction l generalizing m0 with
  | nil => exact le_refl _
  | cons i rest ih =>
    simp only [maxLoop]
    refine le_trans ?_ (ih _)
    split_ifs <;> omega

theorem maxLoop_ge (wincount : Fin 9 → Int) (l : List (Fin 9)) (m0 : Int) (i : Fin 9)
    (hi : i ∈ l) : wincount i ≤ maxLoop wincount l m0 := by
  induction l generalizing m0 with
  | nil => simp at hi
  | cons j rest ih =>
    simp only [maxLoop]
    rcases List.mem_cons.1 hi with rfl | hr
    · refine le_trans ?_ (maxLoop_ge_init _ _ _)
      split_ifs <;> omega
    · exact ih _ hr

theorem maxLoop_attained (wincount : Fin 9 → Int) (l : List (Fin 9)) (m0 : Int) :
    maxLoop wincount l m0 = m0 ∨ ∃ i ∈ l, wincount i = maxLoop wincount l m0 := by
  induction l generalizing m0 with
  | nil => exact Or.inl rfl
  | cons j rest ih =>
    simp only [maxLoop]
    rcases ih (if wincount j > m0 then wincount j else m0) with h | ⟨i, hi, h⟩
    · rw [h]
      by_cases hj : wincount j > m0
      · rw [if_pos hj]
        exact Or.inr ⟨j, List.mem_cons_self _ _, rfl⟩
      · rw [if_neg hj]
        exact Or.inl rfl
    · exact Or.inr ⟨i, List.mem_cons_of_mem _ hi, h⟩

theorem le_maxScore (wincount : Fin 9 → Int) (i : Fin 9) : wincount i ≤ maxScore wincount :=
  maxLoop_ge wincount cells INT_MIN i (mem_cells i)

theorem mem_bestCandidates (wincount : Fin 9 → Int) (i : Fin 9) :
    i ∈ bestCandidates wincount ↔ wincount i = maxScore wincount := by
  simp [bestCandidates, collectCandidates_eq, mem_cells]

theorem bestCandidates_sorted (wincount : Fin 9 → Int) :
    (bestCandidates wincount).Pairwise (· < ·) := by
  unfold bestCandidates
  rw [collectCandidates_eq, List.nil_append]
  exact cells_sorted.sublist (List.filter_sublist _)

/-- When some score exceeds `INT_MIN`, the maximum is attained by a cell. -/
theorem bestCandidates_ne_nil (wincount : Fin 9 → Int) (i : Fin 9)
    (hi : INT_MIN < wincount i) : bestCandidates wincount ≠ [] := by
  rcases maxLoop_attained wincount cells INT_MIN with h | ⟨j, _, hj⟩
  · have := le_maxScore wincount i
    unfold maxScore at this
    omega
  · exact List.ne_nil_of_mem ((mem_bestCandidates wincount j).2 hj)

theorem selectBest_of_ne_nil (rnd : Nat → Nat) (k : Nat) (wincount : Fin 9 → Int)
    (h : (bestCandidates wincount).length ≠ 0) :
    selectBest rnd k wincount =
      .ok (ofIdx ((bestCandidates wincount).get ⟨rnd k % (bestCandidates wincount).length,
        Nat.mod_lt _ (Nat.pos_of_ne_zero h)⟩), k + 1) := by
  unfold selectBest
  simp only [h, dite_false]

theorem selectBest_mem (rnd : Nat → Nat) (k : Nat) (wincount : Fin 9 → Int)
    (h : bestCandidates wincount ≠ []) :
    ∃ i, i ∈ bestCandidates wincount ∧ selectBest rnd k wincount = .ok (ofIdx i, k + 1) := by
  have hlen : (bestCandidates wincount).length ≠ 0 := by
    rwa [Ne, List.length_eq_zero]
  exact ⟨_, List.get_mem _ _ _, selectBest_of_ne_nil rnd k wincount hlen⟩

theorem selectBest_surj (k : Nat) (wincount : Fin 9 → Int) (i : Fin 9)
    (hi : i ∈ bestCandidates wincount) :
    ∃ r, ∀ rnd : Nat → Nat, rnd k = r → selectBest rnd k wincount = .ok (ofIdx i, k + 1) := by
  obtain ⟨n, hn⟩ := List.get_of_mem hi
  have hlen : (bestCandidates wincount).length ≠ 0 := by
    have := n.isLt; omega
  refine ⟨n, ?_⟩
  intro rnd hr
  rw [selectBest_of_ne_nil rnd k wincount hlen]
  congr 3
  rw [← hn]
  congr 1
  apply Fin.ext
  simp only [hr]
  exact Nat.mod_eq_of_lt n.isLt

theorem run_random_games_of_scores (rnd : Nat → Nat) (k : Nat) (board : TTTBoard)
    (currealplayer : TTTPiece) (count : Int) (r : (Fin 9 → Int) × Nat)
    (he : ∃ i, board.p i = MARK_NONE)
    (hr : runScores rnd k board currealplayer count = .ok r) :
    ttt_run_random_games rnd k board currealplayer count = selectBest rnd r.2 r.1 := by
  unfold ttt_run_random_games
  have hflag : ¬ (initScores board).2 = false := by
    rw [Bool.not_eq_false]
    exact (initScores_flag board).2 he
  rw [if_neg hflag, hr]

/-- After at most 214748364 rounds every empty cell scores above `INT_MIN`. -/
theorem runScores_empty_gt (rnd : Nat → Nat) (k : Nat) (board : TTTBoard)
    (currealplayer : TTTPiece) (count : Int) (r : (Fin 9 → Int) × Nat)
    (hr : runScores rnd k board currealplayer count = .ok r)
    (hc : count ≤ 214748364) (i : Fin 9) (hi : board.p i = MARK_NONE) :
    INT_MIN < r.1 i := by
  unfold runScores at hr
  have hb := playRounds_bounds rnd board currealplayer _ _ _ r 0 hr (le_refl _)
    (by omega) (fun j hj => by rw [initScores_apply, if_pos hj]; omega) i hi
  unfold INT_MIN
  omega

/-! ## Dependence on the random stream -/

theorem choose_random_move_congr (rnd rnd1 : Nat → Nat) (k : Nat) (tmp : TTTBoard)
    (h : rnd1 k = rnd k) :
    ttt_choose_random_move rnd1 k tmp = ttt_choose_random_move rnd k tmp := by
  unfold ttt_choose_random_move
  simp only [h]

/-- A rollout reads only the random values between its start index and the
index it returns. -/
theorem rolloutLoop_congr (rnd rnd1 : Nat → Nat) (fuel : Nat) (tmp : TTTBoard)
    (player : TTTPiece) (fm : Int) (k : Nat) (placed : List (Fin 9 × TTTPiece))
    (g : Rollout) (h : rolloutLoop rnd fuel tmp player fm k placed = .ok g)
    (hagree : ∀ j, k ≤ j → j < g.next → rnd1 j = rnd j) :
    rolloutLoop rnd1 fuel tmp player fm k placed = .ok g := by
  induction fuel generalizing tmp player fm k placed with
  | zero => simp [rolloutLoop] at h
  | succ fuel ih =>
    rcases rolloutLoop_cases rnd fuel tmp player fm k placed with
      ⟨hw, hr⟩ | ⟨hw, he, hr⟩ | ⟨hw, _, i, hi, hc, hr⟩
    · rw [rolloutLoop_win rnd1 fuel tmp player fm k placed hw, ← hr, h]
    · rw [rolloutLoop_full rnd1 fuel tmp player fm k placed hw he, ← hr, h]
    · rw [hr] at h
      have hk := (rolloutLoop_result rnd _ _ _ _ _ _ g h).1
      have hc1 : ttt_choose_random_move rnd1 k tmp = (ofIdx i, k + 1) := by
        rw [choose_random_move_congr rnd rnd1 k tmp (hagree k (le_refl _) (by omega)), hc]
      rw [rolloutLoop_move rnd1 fuel tmp player fm k placed hw i hc1 hi]
      exact ih _ _ _ _ _ h (fun j hj1 hj2 => hagree j (by omega) hj2)

theorem rollout_congr (rnd rnd1 : Nat → Nat) (k : Nat) (board : TTTBoard)
    (currealplayer : TTTPiece) (g : Rollout)
    (h : rollout rnd k board currealplayer = .ok g)
    (hagree : ∀ j, k ≤ j → j < g.next → rnd1 j = rnd j) :
    rollout rnd1 k board currealplayer = .ok g :=
  rolloutLoop_congr rnd rnd1 _ _ _ _ _ _ g h hagree

theorem playRounds_congr (rnd rnd1 : Nat → Nat) (board : TTTBoard)
    (currealplayer : TTTPiece) (n : Nat) (wincount : Fin 9 → Int) (k : Nat)
    (r : (Fin 9 → Int) × Nat)
    (h : playRounds rnd board currealplayer n wincount k = .ok r)
    (hagree : ∀ j, k ≤ j → j < r.2 → rnd1 j = rnd j) :
    playRounds rnd1 board currealplayer n wincount k = .ok r := by
  induction n generalizing wincount k with
  | zero => exact h
  | succ n ih =>
    obtain ⟨g, wincount1, hg, hs, hrest⟩ := playRounds_succ_ok rnd board currealplayer n _ _ _ h
    have hk1 := (rollout_result rnd k board currealplayer g hg).1
    have hk2 := (playRounds_occupied rnd board currealplayer n _ _ r hrest).1
    have hg1 : rollout rnd1 k board currealplayer = .ok g :=
      rollout_congr rnd rnd1 k board currealplayer g hg
        (fun j hj1 hj2 => hagree j hj1 (by omega))
    rw [playRounds_succ rnd1 board currealplayer n wincount _ k g hg1 hs]
    exact ih _ _ hrest (fun j hj1 hj2 => hagree j (by omega) hj2)

/-! ## `ttt_run_random_games` on a board with a free cell -/

/-- C1 (amended): for every board with a free cell on which `ttt_check_win`
reports no winner (or when `count ≤ 0`, so that no round is played), every
perspective player, every `count ≤ 214748364` and every random stream,
`ttt_run_random_games` returns an index in `0..8` whose cell is empty on the
board. -/
theorem run_random_games_returns_empty (rnd : Nat → Nat) (k : Nat) (board : TTTBoard)
    (currealplayer : TTTPiece) (count : Int)
    (he : ∃ i, board.p i = MARK_NONE)
    (hw : ttt_check_win board = MARK_NONE ∨ count ≤ 0)
    (hc : count ≤ 214748364) :
    ∃ i k1, ttt_run_random_games rnd k board currealplayer count = .ok (ofIdx i, k1) ∧
      0 ≤ ofIdx i ∧ ofIdx i ≤ 8 ∧ board.p i = MARK_NONE := by
  obtain ⟨r, hr⟩ := runScores_ok rnd k board currealplayer count he hw
  obtain ⟨i0, hi0⟩ := he
  have hgt := runScores_empty_gt rnd k board currealplayer count r hr hc
  have hocc := (playRounds_occupied rnd board currealplayer _ _ _ r hr).2
  obtain ⟨i, hi, hsel⟩ := selectBest_mem rnd r.2 r.1
    (bestCandidates_ne_nil r.1 i0 (hgt i0 hi0))
  refine ⟨i, r.2 + 1, ?_, ?_, ?_, ?_⟩
  · rw [run_random_games_of_scores rnd k board currealplayer count r ⟨i0, hi0⟩ hr, hsel]
  · unfold ofIdx; omega
  · unfold ofIdx; omega
  · by_contra hne
    have h1 : r.1 i = INT_MIN := by
      rw [hocc i hne, initScores_apply, if_neg hne]
    have h2 := (mem_bestCandidates r.1 i).1 hi
    have h3 := le_maxScore r.1 i0
    have h4 := hgt i0 hi0
    omega

theorem run_random_games_returns_empty_witness :
    ∃ i k1, ttt_run_random_games (fun j => j) 0 (boardThreeMarks MARK_X MARK_O) MARK_O
        ROUNDS = .ok (ofIdx i, k1) ∧
      0 ≤ ofIdx i ∧ ofIdx i ≤ 8 ∧ (boardThreeMarks MARK_X MARK_O).p i = MARK_NONE :=
  run_random_games_returns_empty (fun j => j) 0 (boardThreeMarks MARK_X MARK_O) MARK_O
    ROUNDS ⟨2, by decide⟩ (Or.inl (by decide)) (by decide)

/-- C7 (amended): for every board with a free cell on which `ttt_check_win`
reports no winner (or when `count ≤ 0`) and every `count ≤ 214748364`, the
rounds finish with a score vector `r.1`; the returned index is a cell whose
score equals `maxScore`, which bounds all nine entries; the tied set
`bestCandidates` is exactly the set of cells with that score, is non-empty and
contains only empty cells; and every cell of the tied set is returned when the
tie-break value of `rand()` (the one read after the rounds) is chosen suitably. -/
theorem best_move_has_max_score (rnd : Nat → Nat) (k : Nat) (board : TTTBoard)
    (currealplayer : TTTPiece) (count : Int)
    (he : ∃ i, board.p i = MARK_NONE)
    (hw : ttt_check_win board = MARK_NONE ∨ count ≤ 0)
    (hc : count ≤ 214748364) :
    ∃ r, runScores rnd k board currealplayer count = .ok r ∧
      (∃ i, ttt_run_random_games rnd k board currealplayer count = .ok (ofIdx i, r.2 + 1) ∧
        r.1 i = maxScore r.1) ∧
      (∀ j, r.1 j ≤ maxScore r.1) ∧
      (∀ i, i ∈ bestCandidates r.1 ↔ r.1 i = maxScore r.1) ∧
      bestCandidates r.1 ≠ [] ∧
      (∀ i, i ∈ bestCandidates r.1 → board.p i = MARK_NONE) ∧
      (∀ i, i ∈ bestCandidates r.1 →
        ∃ v, ∀ rnd1 : Nat → Nat, (∀ j, j < r.2 → rnd1 j = rnd j) → rnd1 r.2 = v →
          ttt_run_random_games rnd1 k board currealplayer count =
            .ok (ofIdx i, r.2 + 1)) := by
  obtain ⟨r, hr⟩ := runScores_ok rnd k board currealplayer count he hw
  obtain ⟨i0, hi0⟩ := he
  have hgt := runScores_empty_gt rnd k board currealplayer count r hr hc
  have hocc := (playRounds_occupied rnd board currealplayer _ _ _ r hr).2
  have hne : bestCandidates r.1 ≠ [] := bestCandidates_ne_nil r.1 i0 (hgt i0 hi0)
  obtain ⟨i, hi, hsel⟩ := selectBest_mem rnd r.2 r.1 hne
  refine ⟨r, hr, ⟨i, ?_, (mem_bestCandidates r.1 i).1 hi⟩, le_maxScore r.1,
    mem_bestCandidates r.1, hne, ?_, ?_⟩
  · rw [run_random_games_of_scores rnd k board currealplayer count r ⟨i0, hi0⟩ hr, hsel]
  · intro c hcm
    by_contra hcn
    have h1 : r.1 c = INT_MIN := by
      rw [hocc c hcn, initScores_apply, if_neg hcn]
    have h2 := (mem_bestCandidates r.1 c).1 hcm
    have h3 := le_maxScore r.1 i0
    have h4 := hgt i0 hi0
    omega
  · intro c hcm
    obtain ⟨v, hv⟩ := selectBest_surj r.2 r.1 c hcm
    refine ⟨v, ?_⟩
    intro rnd1 hagree hval
    have hr1 : runScores rnd1 k board currealplayer count = .ok r :=
      playRounds_congr rnd rnd1 board currealplayer _ _ _ r hr
        (fun j _ hj => hagree j hj)
    rw [run_random_games_of_scores rnd1 k board currealplayer count r ⟨i0, hi0⟩ hr1]
    exact hv rnd1 hval

/-! ## Rounds under a locally constant random stream -/

theorem choose_random_move_const (v k d : Nat) (tmp : TTTBoard) (z : Int)
    (h : ttt_choose_random_move (fun _ => v) k tmp = (z, k + 1)) :
    ttt_choose_random_move (fun _ => v) (k + d) tmp = (z, k + d + 1) := by
  by_cases he : (emptyCandidates tmp).length = 0
  · rw [choose_random_move_of_empty _ k tmp he] at h
    simp only [Prod.mk.injEq] at h
    omega
  · rw [choose_random_move_of_pos _ k tmp he] at h
    rw [choose_random_move_of_pos _ (k + d) tmp he]
    simp only [Prod.mk.injEq] at h ⊢
    exact ⟨h.1, trivial⟩

theorem rolloutLoop_const_shift (v d : Nat) (fuel : Nat) (tmp : TTTBoard)
    (player : TTTPiece) (fm : Int) (k : Nat) (placed : List (Fin 9 × TTTPiece))
    (g : Rollout) (h : rolloutLoop (fun _ => v) fuel tmp player fm k placed = .ok g) :
    rolloutLoop (fun _ => v) fuel tmp player fm (k + d) placed =
      .ok ⟨g.winner, g.firstmove, g.next + d, g.tmp, g.placed⟩ := by
  induction fuel generalizing tmp player fm k placed with
  | zero => simp [rolloutLoop] at h
  | succ fuel ih =>
    rcases rolloutLoop_cases (fun _ => v) fuel tmp player fm k placed with
      ⟨hw, hr⟩ | ⟨hw, he, hr⟩ | ⟨hw, _, i, hi, hc, hr⟩
    · rw [hr] at h
      simp only [Except.ok.injEq] at h
      subst h
      rw [rolloutLoop_win _ fuel tmp player fm (k + d) placed hw]
    · rw [hr] at h
      simp only [Except.ok.injEq] at h
      subst h
      rw [rolloutLoop_full _ fuel tmp player fm (k + d) placed hw he]
    · rw [hr] at h
      rw [rolloutLoop_move _ fuel tmp player fm (k + d) placed hw i
        (choose_random_move_const v k d tmp _ hc) hi]
      have := ih _ _ _ (k + 1) _ h
      rw [show k + d + 1 = k + 1 + d by omega]
      exact this

/-- A rollout that reads a stretch of the stream on which it is constantly `v`
behaves like the rollout under the constant stream `v` started at index 0. -/
theorem rollout_at (rnd : Nat → Nat) (v : Nat) (board : TTTBoard)
    (currealplayer w : TTTPiece) (z : Int) (m k : Nat)
    (h0 : rolloutSummary (fun _ => v) 0 board currealplayer = .ok (w, z, m))
    (hconst : ∀ j, k ≤ j → j < k + m → rnd j = v) :
    ∃ g, rollout rnd k board currealplayer = .ok g ∧ g.winner = w ∧ g.firstmove = z ∧
      g.next = k + m := by
  unfold rolloutSummary at h0
  cases hg : rollout (fun _ => v) 0 board currealplayer with
  | error e => rw [hg] at h0; simp at h0
  | ok g0 =>
    rw [hg] at h0
    simp only [Rollout.summary, Except.ok.injEq, Prod.mk.injEq] at h0
    obtain ⟨h1, h2, h3⟩ := h0
    have hs := rolloutLoop_const_shift v k _ _ _ _ _ _ g0 hg
    rw [Nat.zero_add] at hs
    refine ⟨_, rollout_congr (fun _ => v) rnd k board currealplayer _ hs ?_, h1, h2, ?_⟩
    · intro j hj1 hj2
      simp only at hj2
      exact hconst j hj1 (by omega)
    · simp only
      omega

/-- A stretch of `n` identical rounds: when the stream is constantly `v` on the
stretch and the rollout under `v` starts on cell `i`, is won by `w` and reads `m`
values, the stretch adds `n * points w` to `wincount[i]` (no 32-bit overflow on
the way) and advances the random index by `n * m`. -/
theorem playRounds_phase (rnd : Nat → Nat) (v : Nat) (board : TTTBoard)
    (currealplayer w : TTTPiece) (i : Fin 9) (m : Nat)
    (h0 : rolloutSummary (fun _ => v) 0 board currealplayer = .ok (w, ofIdx i, m))
    (n rest : Nat) (wincount wincount1 : Fin 9 → Int) (k : Nat)
    (hconst : ∀ j, k ≤ j → j < k + n * m → rnd j = v)
    (hrange : ∀ t : Nat, t ≤ n →
      INT_MIN ≤ wincount i + t * points w currealplayer ∧
      wincount i + t * points w currealplayer ≤ INT_MAX)
    (hw1 : wincount1 = Function.update wincount i
      (wincount i + n * points w currealplayer)) :
    playRounds rnd board currealplayer (n + rest) wincount k =
      playRounds rnd board currealplayer rest wincount1 (k + n * m) := by
  induction n generalizing wincount wincount1 k with
  | zero =>
    subst hw1
    simp
  | succ n ih =>
    have hm : (n + 1) * m = m + n * m := by ring
    obtain ⟨g, hg, hgw, hgf, hgn⟩ := rollout_at rnd v board currealplayer w (ofIdx i) m k h0
      (fun j hj1 hj2 => hconst j hj1 (by rw [hm]; have := Nat.zero_le (n * m); omega))
    have h1 := hrange 1 (by omega)
    simp only [Nat.cast_one, one_mul] at h1
    have hs : scoreRollout wincount g.winner currealplayer g.firstmove =
        .ok (Function.update wincount i (wincount i + points w currealplayer)) := by
      rw [hgw, hgf, scoreRollout_ofIdx, wrapInt_of_range _ h1.1 h1.2]
    rw [show n + 1 + rest = (n + rest) + 1 by omega,
      playRounds_succ rnd board currealplayer (n + rest) wincount _ k g hg hs, hgn]
    rw [ih (Function.update wincount i (wincount i + points w currealplayer)) wincount1
      (k + m)]
    · rw [hm, Nat.add_assoc]
    · intro j hj1 hj2
      exact hconst j (by omega) (by rw [hm]; omega)
    · intro t ht
      rw [Function.update_same]
      have := hrange (t + 1) (by omega)
      push_cast at this
      have he : wincount i + points w currealplayer + (t : Int) * points w currealplayer =
          wincount i + ((t : Int) + 1) * points w currealplayer := by ring
      rw [he]
      exact this
    · have he : wincount i + points w currealplayer + (n : Int) * points w currealplayer =
          wincount i + ((n + 1 : Nat) : Int) * points w currealplayer := by
        push_cast
        ring
      rw [hw1, Function.update_same, Function.update_idem, he]

/-! ## A run in which every free cell reaches the sentinel score -/

theorem collision_scores :
    runScores collisionRnd 0 collisionBoard MARK_X 858993468 =
      .ok (fun _ => INT_MIN, 3006477134) := by
  unfold runScores
  have hinit : (initScores collisionBoard).1 = scoreVec 0 INT_MIN 0 0 0 INT_MIN INT_MIN INT_MIN INT_MIN := by
    funext j; revert j; decide
  have hn : (858993468 : Int).toNat =
      2 + (214748365 + (2 + (214748365 + (2 + (214748365 + (2 + (214748365 + 0))))))) := by
    decide
  rw [hinit, hn]
  rw [playRounds_phase collisionRnd 4 collisionBoard MARK_X MARK_X 0 3 (by decide) 2 _
    (scoreVec 0 INT_MIN 0 0 0 INT_MIN INT_MIN INT_MIN INT_MIN)
    (scoreVec 2 INT_MIN 0 0 0 INT_MIN INT_MIN INT_MIN INT_MIN) 0
    (by intro j h1 h2; unfold collisionRnd; split_ifs <;> omega)
    (by
      intro t ht
      have hv : (scoreVec 0 INT_MIN 0 0 0 INT_MIN INT_MIN INT_MIN INT_MIN) 0 = 0 := by decide
      have hp : points MARK_X MARK_X = 1 := by decide
      rw [hv, hp]
      unfold INT_MIN INT_MAX
      omega)
    (by funext j; revert j; decide)]
  rw [playRounds_phase collisionRnd 0 collisionBoard MARK_X MARK_O 0 2 (by decide) 214748365 _
    (scoreVec 2 INT_MIN 0 0 0 INT_MIN INT_MIN INT_MIN INT_MIN)
    (scoreVec INT_MIN INT_MIN 0 0 0 INT_MIN INT_MIN INT_MIN INT_MIN) 6
    (by intro j h1 h2; unfold collisionRnd; split_ifs <;> omega)
    (by
      intro t ht
      have hv : (scoreVec 2 INT_MIN 0 0 0 INT_MIN INT_MIN INT_MIN INT_MIN) 0 = 2 := by decide
      have hp : points MARK_O MARK_X = -10 := by decide
      rw [hv, hp]
      unfold INT_MIN INT_MAX
      omega)
    (by funext j; revert j; decide)]
  rw [playRounds_phase collisionRnd 1 collisionBoard MARK_X MARK_X 2 3 (by decide) 2 _
    (scoreVec INT_MIN INT_MIN 0 0 0 INT_MIN INT_MIN INT_MIN INT_MIN)
    (scoreVec INT_MIN INT_MIN 2 0 0 INT_MIN INT_MIN INT_MIN INT_MIN) 429496736
    (by intro j h1 h2; unfold collisionRnd; split_ifs <;> omega)
    (by
      intro t ht
      have hv : (scoreVec INT_MIN INT_MIN 0 0 0 INT_MIN INT_MIN INT_MIN INT_MIN) 2 = 0 := by decide
      have hp : points MARK_X MARK_X = 1 := by decide
      rw [hv, hp]
      unfold INT_MIN INT_MAX
      omega)
    (by funext j; revert j; decide)]
  rw [playRounds_phase collisionRnd 5 collisionBoard MARK_X MARK_O 2 4 (by decide) 214748365 _
    (scoreVec INT_MIN INT_MIN 2 0 0 INT_MIN INT_MIN INT_MIN INT_MIN)
    (scoreVec INT_MIN INT_MIN INT_MIN 0 0 INT_MIN INT_MIN INT_MIN INT_MIN) 429496742
    (by intro j h1 h2; unfold collisionRnd; split_ifs <;> omega)
    (by
      intro t ht
      have hv : (scoreVec INT_MIN INT_MIN 2 0 0 INT_MIN INT_MIN INT_MIN INT_MIN) 2 = 2 := by decide
      have hp : points MARK_O MARK_X = -10 := by decide
      rw [hv, hp]
      unfold INT_MIN INT_MAX
      omega)
    (by funext j; revert j; decide)]
  rw [playRounds_phase collisionRnd 2 collisionBoard MARK_X MARK_X 3 3 (by decide) 2 _
    (scoreVec INT_MIN INT_MIN INT_MIN 0 0 INT_MIN INT_MIN INT_MIN INT_MIN)
    (scoreVec INT_MIN INT_MIN INT_MIN 2 0 INT_MIN INT_MIN INT_MIN INT_MIN) 1288490202
    (by intro j h1 h2; unfold collisionRnd; split_ifs <;> omega)
    (by
      intro t ht
      have hv : (scoreVec INT_MIN INT_MIN INT_MIN 0 0 INT_MIN INT_MIN INT_MIN INT_MIN) 3 = 0 := by decide
      have hp : points MARK_X MARK_X = 1 := by decide
      rw [hv, hp]
      unfold INT_MIN INT_MAX
      omega)
    (by funext j; revert j; decide)]
  rw [playRounds_phase collisionRnd 6 collisionBoard MARK_X MARK_O 3 4 (by decide) 214748365 _
    (scoreVec INT_MIN INT_MIN INT_MIN 2 0 INT_MIN INT_MIN INT_MIN INT_MIN)
    (scoreVec INT_MIN INT_MIN INT_MIN INT_MIN 0 INT_MIN INT_MIN INT_MIN INT_MIN) 1288490208
    (by intro j h1 h2; unfold collisionRnd; split_ifs <;> omega)
    (by
      intro t ht
      have hv : (scoreVec INT_MIN INT_MIN INT_MIN 2 0 INT_MIN INT_MIN INT_MIN INT_MIN) 3 = 2 := by decide
      have hp : points MARK_O MARK_X = -10 := by decide
      rw [hv, hp]
      unfold INT_MIN INT_MAX
      omega)
    (by funext j; revert j; decide)]
  rw [playRounds_phase collisionRnd 11 collisionBoard MARK_X MARK_X 4 3 (by decide) 2 _
    (scoreVec INT_MIN INT_MIN INT_MIN INT_MIN 0 INT_MIN INT_MIN INT_MIN INT_MIN)
    (scoreVec INT_MIN INT_MIN INT_MIN INT_MIN 2 INT_MIN INT_MIN INT_MIN INT_MIN) 2147483668
    (by intro j h1 h2; unfold collisionRnd; split_ifs <;> omega)
    (by
      intro t ht
      have hv : (scoreVec INT_MIN INT_MIN INT_MIN INT_MIN 0 INT_MIN INT_MIN INT_MIN INT_MIN) 4 = 0 := by decide
      have hp : points MARK_X MARK_X = 1 := by decide
      rw [hv, hp]
      unfold INT_MIN INT_MAX
      omega)
    (by funext j; revert j; decide)]
  rw [playRounds_phase collisionRnd 3 collisionBoard MARK_X MARK_O 4 4 (by decide) 214748365 _
    (scoreVec INT_MIN INT_MIN INT_MIN INT_MIN 2 INT_MIN INT_MIN INT_MIN INT_MIN)
    (scoreVec INT_MIN INT_MIN INT_MIN INT_MIN INT_MIN INT_MIN INT_MIN INT_MIN INT_MIN) 2147483674
    (by intro j h1 h2; unfold collisionRnd; split_ifs <;> omega)
    (by
      intro t ht
      have hv : (scoreVec INT_MIN INT_MIN INT_MIN INT_MIN 2 INT_MIN INT_MIN INT_MIN INT_MIN) 4 = 2 := by decide
      have hp : points MARK_O MARK_X = -10 := by decide
      rw [hv, hp]
      unfold INT_MIN INT_MAX
      omega)
    (by funext j; revert j; decide)]
  have hfin : scoreVec INT_MIN INT_MIN INT_MIN INT_MIN INT_MIN INT_MIN INT_MIN INT_MIN INT_MIN = fun _ => INT_MIN := by
    funext j; revert j; decide
  rw [hfin]
  rfl

/-- C1 (counterexample): on `wonBoard` (free cells, completed row) one round
writes `wincount[-1]`; and on `collisionBoard` (no completed line) with
`count = 858993468` and the stream `collisionRnd`, every free cell ends with score
`INT_MIN` without any overflow and the function returns index 1, a cell occupied
by `MARK_X`. -/
theorem run_random_games_counterexample :
    (wonBoard.p 3 = MARK_NONE ∧
      ttt_run_random_games (fun _ => 0) 0 wonBoard MARK_X 1 = .error Fault.outOfBounds) ∧
    (collisionBoard.p 0 = MARK_NONE ∧ collisionBoard.p 1 = MARK_X ∧
      ttt_check_win collisionBoard = MARK_NONE ∧
      ttt_run_random_games collisionRnd 0 collisionBoard MARK_X 858993468 =
        .ok (1, 3006477135)) := by
  refine ⟨⟨by decide, by decide⟩, by decide, by decide, by decide, ?_⟩
  rw [run_random_games_of_scores collisionRnd 0 collisionBoard MARK_X 858993468 _
    ⟨0, by decide⟩ collision_scores]
  decide

/-- C7 (counterexample): after the run of `collision_scores` all nine scores
equal `INT_MIN`, so the tied set is all of `cells` and contains the occupied
cell 1; and on `wonBoard` one round writes `wincount[-1]`, so no score vector
results. -/
theorem best_move_counterexample :
    (collisionBoard.p 0 = MARK_NONE ∧ ttt_check_win collisionBoard = MARK_NONE ∧
      runScores collisionRnd 0 collisionBoard MARK_X 858993468 =
        .ok (fun _ => INT_MIN, 3006477134) ∧
      bestCandidates (fun _ => INT_MIN) = cells ∧ 1 ∈ bestCandidates (fun _ => INT_MIN) ∧
      collisionBoard.p 1 = MARK_X) ∧
    (wonBoard.p 3 = MARK_NONE ∧
      runScores (fun _ => 0) 0 wonBoard MARK_X 1 = .error Fault.outOfBounds) := by
  refine ⟨⟨by decide, by decide, collision_scores, by decide, by decide, by decide⟩,
    by decide, by decide⟩

theorem best_move_has_max_score_witness :
    ∃ r, runScores (fun j => j) 0 (boardThreeMarks MARK_X MARK_O) MARK_O ROUNDS = .ok r ∧
      (∃ i, ttt_run_random_games (fun j => j) 0 (boardThreeMarks MARK_X MARK_O) MARK_O
          ROUNDS = .ok (ofIdx i, r.2 + 1) ∧ r.1 i = maxScore r.1) ∧
      (∀ j, r.1 j ≤ maxScore r.1) ∧
      (∀ i, i ∈ bestCandidates r.1 ↔ r.1 i = maxScore r.1) ∧
      bestCandidates r.1 ≠ [] ∧
      (∀ i, i ∈ bestCandidates r.1 → (boardThreeMarks MARK_X MARK_O).p i = MARK_NONE) ∧
      (∀ i, i ∈ bestCandidates r.1 →
        ∃ v, ∀ rnd1 : Nat → Nat, (∀ j, j < r.2 → rnd1 j = (fun j => j) j) → rnd1 r.2 = v →
          ttt_run_random_games rnd1 0 (boardThreeMarks MARK_X MARK_O) MARK_O ROUNDS =
            .ok (ofIdx i, r.2 + 1)) :=
  best_move_has_max_score (fun j => j) 0 (boardThreeMarks MARK_X MARK_O) MARK_O ROUNDS
    ⟨2, by decide⟩ (Or.inl (by decide)) (by decide)

/-! ## The scenario `[A, A, Empty, B, B, Empty, Empty, Empty, Empty]` -/

theorem choose_first_candidate (rnd : Nat → Nat) (k : Nat) (board : TTTBoard)
    (i : Fin 9) (rest : List (Fin 9)) (hc : emptyCandidates board = i :: rest)
    (hr : rnd k % (rest.length + 1) = 0) :
    ttt_choose_random_move rnd k board = (ofIdx i, k + 1) := by
  have hlen : (emptyCandidates board).length ≠ 0 := by rw [hc]; simp
  have key : ∀ (l : List (Fin 9)) (h : l.length ≠ 0), l = i :: rest →
      l.get ⟨rnd k % l.length, Nat.mod_lt _ (Nat.pos_of_ne_zero h)⟩ = i := by
    intro l h hl
    subst hl
    simp [hr]
  rw [choose_random_move_of_pos rnd k board hlen, key _ hlen hc]

/-- A rollout whose first placement completes a line for the mover stops after
that placement. -/
theorem rollout_immediate_win (rnd : Nat → Nat) (k : Nat) (board : TTTBoard) (a : TTTPiece)
    (i : Fin 9) (hw : ttt_check_win board = MARK_NONE) (hi : board.p i = MARK_NONE)
    (hwin : ttt_check_win (setCell board i a) = a) (ha : a ≠ MARK_NONE)
    (hc : ttt_choose_random_move rnd k board = (ofIdx i, k + 1)) :
    rollout rnd k board a = .ok ⟨a, ofIdx i, k + 1, setCell board i a, [(i, a)]⟩ := by
  unfold rollout ttt_copy_board
  rw [rolloutLoop_move rnd 10 board a (-1) k [] hw i hc hi,
    rolloutLoop_win rnd 9 _ _ _ _ _ (by rw [hwin]; exact ha), hwin, if_pos rfl]
  rfl

/-- Rounds in which every first draw selects the winning cell `i`: each adds
`WIN_POINTS` to `wincount[i]` and reads one random value. -/
theorem playRounds_immediate_wins (board : TTTBoard) (a : TTTPiece) (i : Fin 9)
    (rest : List (Fin 9)) (rnd : Nat → Nat)
    (hw : ttt_check_win board = MARK_NONE) (hi : board.p i = MARK_NONE)
    (hwin : ttt_check_win (setCell board i a) = a) (ha : a ≠ MARK_NONE)
    (hc : emptyCandidates board = i :: rest)
    (n : Nat) (wincount : Fin 9 → Int) (k : Nat)
    (hr : ∀ j, k ≤ j → j < k + n → rnd j % (rest.length + 1) = 0)
    (hlo : INT_MIN ≤ wincount i) (hhi : wincount i + n ≤ INT_MAX) :
    playRounds rnd board a n wincount k =
      .ok (Function.update wincount i (wincount i + n), k + n) := by
  induction n generalizing wincount k with
  | zero => simp [playRounds]
  | succ n ih =>
    have hch := choose_first_candidate rnd k board i rest hc (hr k (le_refl _) (by omega))
    have hg := rollout_immediate_win rnd k board a i hw hi hwin ha hch
    have hpts : points a a = 1 := by
      unfold points
      rw [if_pos ha, if_pos rfl]
      rfl
    push_cast at hhi
    have hs : scoreRollout wincount a a (ofIdx i) =
        .ok (Function.update wincount i (wincount i + 1)) := by
      rw [scoreRollout_ofIdx, hpts, wrapInt_of_range _ (by omega) (by omega)]
    rw [playRounds_succ rnd board a n wincount _ k _ hg hs]
    simp only
    rw [ih _ (k + 1) (fun j h1 h2 => hr j (by omega) (by omega))
      (by rw [Function.update_same]; omega) (by rw [Function.update_same]; omega)]
    rw [Function.update_same, Function.update_idem]
    push_cast
    rw [show wincount i + 1 + (n : Int) = wincount i + (n + 1) by ring,
      show k + 1 + n = k + (n + 1) by omega]

/-- With at least one round, and every first draw selecting the winning cell
`i`, `ttt_run_random_games` returns `i`. -/
theorem run_random_games_immediate_wins (board : TTTBoard) (a : TTTPiece) (i : Fin 9)
    (rest : List (Fin 9)) (rnd : Nat → Nat)
    (hw : ttt_check_win board = MARK_NONE) (hi : board.p i = MARK_NONE)
    (hwin : ttt_check_win (setCell board i a) = a) (ha : a ≠ MARK_NONE)
    (hc : emptyCandidates board = i :: rest)
    (k : Nat) (count : Int) (h1 : 1 ≤ count) (h2 : count ≤ INT_MAX)
    (hr : ∀ j, k ≤ j → j < k + count.toNat → rnd j % (rest.length + 1) = 0) :
    ttt_run_random_games rnd k board a count = .ok (ofIdx i, k + count.toNat + 1) := by
  have hn : ((count.toNat : Nat) : Int) = count := Int.toNat_of_nonneg (by omega)
  have hinit : (initScores board).1 i = 0 := by rw [initScores_apply, if_pos hi]
  have hscores : runScores rnd k board a count =
      .ok (Function.update (initScores board).1 i ((initScores board).1 i + count.toNat),
        k + count.toNat) := by
    unfold runScores
    exact playRounds_immediate_wins board a i rest rnd hw hi hwin ha hc _ _ k hr
      (by rw [hinit]; unfold INT_MIN; omega) (by rw [hinit, hn]; omega)
  rw [run_random_games_of_scores rnd k board a count _ ⟨i, hi⟩ hscores]
  simp only
  rw [hinit, hn, zero_add]
  have hne : bestCandidates (Function.update (initScores board).1 i count) ≠ [] :=
    bestCandidates_ne_nil _ i (by rw [Function.update_same]; unfold INT_MIN; omega)
  obtain ⟨c, hcm, hsel⟩ := selectBest_mem rnd (k + count.toNat) _ hne
  have hci : c = i := by
    by_contra hcne
    have hm := (mem_bestCandidates _ c).1 hcm
    have hle := le_maxScore (Function.update (initScores board).1 i count) i
    rw [Function.update_same] at hle
    rw [Function.update_noteq hcne, initScores_apply] at hm
    unfold INT_MIN at hm
    split_ifs at hm <;> omega
  rw [hsel, hci]

/-- C5 (counterexample): on `[X, X, Empty, O, O, Empty, Empty, Empty, Empty]` with
perspective `MARK_X`, under the constant stream 6 every one of the 30000 games
starts on cell 5 and is won by `MARK_X`, so index 5 is returned; and with
`count = 0` and the constant stream 1 the tie among the five free cells is broken
in favour of index 5. -/
theorem two_rows_counterexample :
    ttt_run_random_games (fun _ => 6) 0 (boardTwoRows MARK_X MARK_O) MARK_X ROUNDS =
      .ok (5, 90001) ∧
    ttt_run_random_games (fun _ => 1) 0 (boardTwoRows MARK_X MARK_O) MARK_X 0 =
      .ok (5, 1) := by
  refine ⟨?_, by decide⟩
  have hscores : runScores (fun _ => 6) 0 (boardTwoRows MARK_X MARK_O) MARK_X ROUNDS =
      .ok (scoreVec INT_MIN INT_MIN 0 INT_MIN INT_MIN 30000 0 0 0, 90000) := by
    unfold runScores
    have hinit : (initScores (boardTwoRows MARK_X MARK_O)).1 =
        scoreVec INT_MIN INT_MIN 0 INT_MIN INT_MIN 0 0 0 0 := by
      funext j; revert j; decide
    have hn : ROUNDS.toNat = 30000 + 0 := by decide
    rw [hinit, hn]
    rw [playRounds_phase (fun _ => 6) 6 (boardTwoRows MARK_X MARK_O) MARK_X MARK_X 5 3
      (by decide) 30000 0
      (scoreVec INT_MIN INT_MIN 0 INT_MIN INT_MIN 0 0 0 0)
      (scoreVec INT_MIN INT_MIN 0 INT_MIN INT_MIN 30000 0 0 0) 0
      (fun _ _ _ => rfl)
      (by
        intro t ht
        have hv : (scoreVec INT_MIN INT_MIN 0 INT_MIN INT_MIN 0 0 0 0) 5 = 0 := by decide
        have hp : points MARK_X MARK_X = 1 := by decide
        rw [hv, hp]
        unfold INT_MIN INT_MAX
        omega)
      (by funext j; revert j; decide)]
    rfl
  rw [run_random_games_of_scores (fun _ => 6) 0 (boardTwoRows MARK_X MARK_O) MARK_X ROUNDS _
    ⟨2, by decide⟩ hscores]
  decide

/-- C5 (amended): on `[A, A, Empty, B, B, Empty, Empty, Empty, Empty]` with
perspective `A`, every rollout whose first move is cell 2 stops after that one
placement with winner `A`; and for every `count` from 1 to `INT_MAX`, when the
first draw of every rollout selects cell 2 (`rand() % 5 = 0`),
`ttt_run_random_games` returns index 2. -/
theorem two_rows_returns_two (a b : TTTPiece)
    (hab : (a = MARK_X ∧ b = MARK_O) ∨ (a = MARK_O ∧ b = MARK_X)) :
    (∀ (rnd : Nat → Nat) (k : Nat) (g : Rollout),
      rollout rnd k (boardTwoRows a b) a = .ok g → g.firstmove = 2 →
        g.winner = a ∧ g.placed = [(2, a)] ∧ g.next = k + 1) ∧
    (∀ (rnd : Nat → Nat) (k : Nat) (count : Int), 1 ≤ count → count ≤ INT_MAX →
      (∀ j, k ≤ j → j < k + count.toNat → rnd j % 5 = 0) →
        ttt_run_random_games rnd k (boardTwoRows a b) a count =
          .ok (2, k + count.toNat + 1)) := by
  have hw : ttt_check_win (boardTwoRows a b) = MARK_NONE := by
    rcases hab with ⟨rfl, rfl⟩ | ⟨rfl, rfl⟩ <;> decide
  have hi : (boardTwoRows a b).p 2 = MARK_NONE := by
    rcases hab with ⟨rfl, rfl⟩ | ⟨rfl, rfl⟩ <;> decide
  have hwin : ttt_check_win (setCell (boardTwoRows a b) 2 a) = a := by
    rcases hab with ⟨rfl, rfl⟩ | ⟨rfl, rfl⟩ <;> decide
  have ha : a ≠ MARK_NONE := by
    rcases hab with ⟨rfl, rfl⟩ | ⟨rfl, rfl⟩ <;> decide
  have hc : emptyCandidates (boardTwoRows a b) = 2 :: [5, 6, 7, 8] := by
    rcases hab with ⟨rfl, rfl⟩ | ⟨rfl, rfl⟩ <;> decide
  constructor
  · intro rnd k g hg hfm
    have he : numEmpty (boardTwoRows a b) ≠ 0 := by
      rw [Ne, numEmpty_eq_zero]
      exact fun hall => hall 2 hi
    obtain ⟨g1, i, hg1, hfm1, _, hch, _⟩ := rollout_firstmove rnd k (boardTwoRows a b) a hw he
    rw [hg] at hg1
    simp only [Except.ok.injEq] at hg1
    subst hg1
    have hi2 : i = 2 := ofIdx_injective (hfm1.symm.trans hfm)
    subst hi2
    have hres := rollout_immediate_win rnd k (boardTwoRows a b) a 2 hw hi hwin ha hch
    rw [hg] at hres
    simp only [Except.ok.injEq] at hres
    rw [hres]
    exact ⟨rfl, rfl, rfl⟩
  · intro rnd k count h1 h2 hr
    exact run_random_games_immediate_wins (boardTwoRows a b) a 2 [5, 6, 7, 8] rnd hw hi hwin
      ha hc k count h1 h2 hr

theorem two_rows_returns_two_witness :
    ttt_run_random_games (fun _ => 0) 0 (boardTwoRows MARK_X MARK_O) MARK_X ROUNDS =
      .ok (2, 30001) :=
  (two_rows_returns_two MARK_X MARK_O (Or.inl ⟨rfl, rfl⟩)).2 (fun _ => 0) 0 ROUNDS
    (by decide) (by decide) (fun _ _ _ => rfl)

/-! ## `ttt_check_win` as the first line with three equal cells -/

theorem checkWinSpec_eq (board : TTTBoard) : ttt_check_win board = checkWinSpec board := by
  unfold ttt_check_win checkWinSpec firstEqualLine winLines
  dsimp only
  generalize hP : (fun l : Fin 9 × Fin 9 × Fin 9 =>
    decide (board.p l.1 = board.p l.2.1 ∧ board.p l.2.1 = board.p l.2.2)) = P
  have e1 : P (0, 1, 2) =
      decide (board.p 0 = board.p 1 ∧ board.p 1 = board.p 2) := by rw [← hP]
  by_cases h1 : board.p 0 = board.p 1 ∧ board.p 1 = board.p 2
  · rw [if_pos h1, List.find?_cons_of_pos _ (by rw [e1]; exact decide_eq_true h1)]
  rw [if_neg h1, List.find?_cons_of_neg _ (by rw [e1, decide_eq_true_eq]; exact h1)]
  have e2 : P (3, 4, 5) =
      decide (board.p 3 = board.p 4 ∧ board.p 4 = board.p 5) := by rw [← hP]
  by_cases h2 : board.p 3 = board.p 4 ∧ board.p 4 = board.p 5
  · rw [if_pos h2, List.find?_cons_of_pos _ (by rw [e2]; exact decide_eq_true h2)]
  rw [if_neg h2, List.find?_cons_of_neg _ (by rw [e2, decide_eq_true_eq]; exact h2)]
  have e3 : P (6, 7, 8) =
      decide (board.p 6 = board.p 7 ∧ board.p 7 = board.p 8) := by rw [← hP]
  by_cases h3 : board.p 6 = board.p 7 ∧ board.p 7 = board.p 8
  · rw [if_pos h3, List.find?_cons_of_pos _ (by rw [e3]; exact decide_eq_true h3)]
  rw [if_neg h3, List.find?_cons_of_neg _ (by rw [e3, decide_eq_true_eq]; exact h3)]
  have e4 : P (0, 3, 6) =
      decide (board.p 0 = board.p 3 ∧ board.p 3 = board.p 6) := by rw [← hP]
  by_cases h4 : board.p 0 = board.p 3 ∧ board.p 3 = board.p 6
  · rw [if_pos h4, List.find?_cons_of_pos _ (by rw [e4]; exact decide_eq_true h4)]
  rw [if_neg h4, List.find?_cons_of_neg _ (by rw [e4, decide_eq_true_eq]; exact h4)]
  have e5 : P (1, 4, 7) =
      decide (board.p 1 = board.p 4 ∧ board.p 4 = board.p 7) := by rw [← hP]
  by_cases h5 : board.p 1 = board.p 4 ∧ board.p 4 = board.p 7
  · rw [if_pos h5, List.find?_cons_of_pos _ (by rw [e5]; exact decide_eq_true h5)]
  rw [if_neg h5, List.find?_cons_of_neg _ (by rw [e5, decide_eq_true_eq]; exact h5)]
  have e6 : P (2, 5, 8) =
      decide (board.p 2 = board.p 5 ∧ board.p 5 = board.p 8) := by rw [← hP]
  by_cases h6 : board.p 2 = board.p 5 ∧ board.p 5 = board.p 8
  · rw [if_pos h6, List.find?_cons_of_pos _ (by rw [e6]; exact decide_eq_true h6)]
  rw [if_neg h6, List.find?_cons_of_neg _ (by rw [e6, decide_eq_true_eq]; exact h6)]
  have e7 : P (0, 4, 8) =
      decide (board.p 0 = board.p 4 ∧ board.p 4 = board.p 8) := by rw [← hP]
  by_cases h7 : board.p 0 = board.p 4 ∧ board.p 4 = board.p 8
  · rw [if_pos h7, List.find?_cons_of_pos _ (by rw [e7]; exact decide_eq_true h7)]
  rw [if_neg h7, List.find?_cons_of_neg _ (by rw [e7, decide_eq_true_eq]; exact h7)]
  have e8 : P (2, 4, 6) =
      decide (board.p 2 = board.p 4 ∧ board.p 4 = board.p 6) := by rw [← hP]
  by_cases h8 : board.p 2 = board.p 4 ∧ board.p 4 = board.p 6
  · rw [if_pos h8, List.find?_cons_of_pos _ (by rw [e8]; exact decide_eq_true h8)]
  rw [if_neg h8, List.find?_cons_of_neg _ (by rw [e8, decide_eq_true_eq]; exact h8)]
  rfl

/-- C17: `ttt_check_win` returns the mark held by the first line, in the order
0-1-2, 3-4-5, 6-7-8, 0-3-6, 1-4-7, 2-5-8, 0-4-8, 2-4-6, whose three cells are equal
to one another (three empty cells count as equal and yield `MARK_NONE`), and
`MARK_NONE` when no line has three equal cells; so whenever it returns a
non-empty mark `m`, some line is held entirely by `m`. -/
theorem check_win_first_equal_line (board : TTTBoard) :
    ttt_check_win board = checkWinSpec board ∧
    (∀ l, firstEqualLine board = some l →
      l ∈ winLines ∧ board.p l.1 = board.p l.2.1 ∧ board.p l.2.1 = board.p l.2.2 ∧
      ttt_check_win board = board.p l.2.2) ∧
    (firstEqualLine board = none →
      ttt_check_win board = MARK_NONE ∧
      ∀ l ∈ winLines, ¬ (board.p l.1 = board.p l.2.1 ∧ board.p l.2.1 = board.p l.2.2)) ∧
    (∀ m, m ≠ MARK_NONE → ttt_check_win board = m →
      ∃ l ∈ winLines, lineHeldBy board l m) := by
  refine ⟨checkWinSpec_eq board, ?_, ?_, ?_⟩
  · intro l hl
    have hmem : l ∈ winLines := List.mem_of_find?_eq_some hl
    have hp := List.find?_some hl
    rw [decide_eq_true_eq] at hp
    refine ⟨hmem, hp.1, hp.2, ?_⟩
    rw [checkWinSpec_eq, checkWinSpec]
    unfold firstEqualLine at hl ⊢
    rw [hl]
  · intro hnone
    constructor
    · rw [checkWinSpec_eq, checkWinSpec, hnone]
    · intro l hl
      unfold firstEqualLine at hnone
      have := List.find?_eq_none.1 hnone l hl
      simpa using this
  · intro m hm hcw
    have hne : ttt_check_win board ≠ MARK_NONE := by rw [hcw]; exact hm
    obtain ⟨l, hl, hheld⟩ := check_win_line board hne
    exact ⟨l, hl, by rw [← hcw]; exact hheld⟩

theorem check_win_first_equal_line_witness :
    ∃ l ∈ winLines, lineHeldBy
      (mkBoard MARK_O MARK_X MARK_NONE MARK_NONE MARK_X MARK_O MARK_NONE MARK_X MARK_NONE)
      l MARK_X :=
  (check_win_first_equal_line
    (mkBoard MARK_O MARK_X MARK_NONE MARK_NONE MARK_X MARK_O MARK_NONE MARK_X MARK_NONE)).2.2.2
    MARK_X (by decide) (by decide)

/-! ## Round count zero -/

theorem maxScore_initScores (board : TTTBoard) (he : ∃ i, board.p i = MARK_NONE) :
    maxScore (initScores board).1 = 0 := by
  obtain ⟨i0, hi0⟩ := he
  have hge := le_maxScore (initScores board).1 i0
  rw [initScores_apply, if_pos hi0] at hge
  rcases maxLoop_attained (initScores board).1 cells INT_MIN with h | ⟨j, _, hj⟩
  · unfold maxScore at hge
    rw [h] at hge
    unfold INT_MIN at hge
    omega
  · unfold maxScore at hge ⊢
    rw [← hj, initScores_apply] at hge ⊢
    unfold INT_MIN at hge ⊢
    split_ifs at hge ⊢ <;> omega

theorem bestCandidates_initScores (board : TTTBoard) (he : ∃ i, board.p i = MARK_NONE) :
    bestCandidates (initScores board).1 = emptyCandidates board := by
  unfold bestCandidates
  rw [collectCandidates_eq, List.nil_append, emptyCandidates_eq, maxScore_initScores board he]
  apply List.filter_congr
  intro i _
  rw [initScores_apply]
  by_cases hi : board.p i = MARK_NONE
  · simp [hi]
  · simp [hi, INT_MIN]

theorem getElem_mod_congr (l l1 : List (Fin 9)) (h : l = l1) (n : Nat) (hl : l.length ≠ 0) :
    l1[n % l1.length]? =
      some (l.get ⟨n % l.length, Nat.mod_lt _ (Nat.pos_of_ne_zero hl)⟩) := by
  subst h
  rw [List.getElem?_eq_getElem (Nat.mod_lt _ (Nat.pos_of_ne_zero hl))]
  rfl

/-- C20: with `count = 0`, on a board with `k ≥ 1` empty cells, every empty cell
has score 0, the tied set is exactly the ascending list of the empty cells, and
`ttt_run_random_games` returns entry `rand() % k` of that list. -/
theorem run_random_games_zero_rounds (rnd : Nat → Nat) (k : Nat) (board : TTTBoard)
    (currealplayer : TTTPiece) (he : ∃ i, board.p i = MARK_NONE) :
    runScores rnd k board currealplayer 0 = .ok ((initScores board).1, k) ∧
    (∀ i, board.p i = MARK_NONE → (initScores board).1 i = 0) ∧
    bestCandidates (initScores board).1 = legalMoves board ∧
    (∀ i, i ∈ bestCandidates (initScores board).1 ↔ board.p i = MARK_NONE) ∧
    (legalMoves board).length ≠ 0 ∧
    ∃ i, (legalMoves board)[rnd k % (legalMoves board).length]? = some i ∧
      ttt_run_random_games rnd k board currealplayer 0 = .ok (ofIdx i, k + 1) := by
  have hbest := bestCandidates_initScores board he
  have hbl : bestCandidates (initScores board).1 = legalMoves board := by
    rw [hbest, legalMoves_eq]
  have hscores : runScores rnd k board currealplayer 0 = .ok ((initScores board).1, k) := rfl
  have hlen : (bestCandidates (initScores board).1).length ≠ 0 := by
    rw [hbest]
    obtain ⟨i, hi⟩ := he
    have := List.length_pos_of_mem ((mem_emptyCandidates board i).2 hi)
    omega
  refine ⟨hscores, ?_, hbl, ?_, by rw [← hbl]; exact hlen, ?_⟩
  · intro i hi
    rw [initScores_apply, if_pos hi]
  · intro i
    rw [hbest]
    exact mem_emptyCandidates board i
  · refine ⟨_, getElem_mod_congr _ _ hbl (rnd k) hlen, ?_⟩
    rw [run_random_games_of_scores rnd k board currealplayer 0 _ he hscores,
      selectBest_of_ne_nil rnd k _ hlen]

theorem run_random_games_zero_rounds_witness :
    ∃ i, (legalMoves (boardThreeMarks MARK_X MARK_O))[(fun _ => 7) 0 %
        (legalMoves (boardThreeMarks MARK_X MARK_O)).length]? = some i ∧
      ttt_run_random_games (fun _ => 7) 0 (boardThreeMarks MARK_X MARK_O) MARK_O 0 =
        .ok (ofIdx i, 0 + 1) :=
  (run_random_games_zero_rounds (fun _ => 7) 0 (boardThreeMarks MARK_X MARK_O) MARK_O
    ⟨2, by decide⟩).2.2.2.2.2

/-! ## `ttt_check_win` and `ttt_board_full` leave the board as it is -/

theorem check_win_call_eq (board : TTTBoard) :
    ttt_check_win_call board = (ttt_check_win board, board) := by
  unfold ttt_check_win_call ttt_check_win
  dsimp only
  by_cases h1 : board.p 0 = board.p 1 ∧ board.p 1 = board.p 2
  · rw [if_pos h1, if_pos h1]
  rw [if_neg h1, if_neg h1]
  by_cases h2 : board.p 3 = board.p 4 ∧ board.p 4 = board.p 5
  · rw [if_pos h2, if_pos h2]
  rw [if_neg h2, if_neg h2]
  by_cases h3 : board.p 6 = board.p 7 ∧ board.p 7 = board.p 8
  · rw [if_pos h3, if_pos h3]
  rw [if_neg h3, if_neg h3]
  by_cases h4 : board.p 0 = board.p 3 ∧ board.p 3 = board.p 6
  · rw [if_pos h4, if_pos h4]
  rw [if_neg h4, if_neg h4]
  by_cases h5 : board.p 1 = board.p 4 ∧ board.p 4 = board.p 7
  · rw [if_pos h5, if_pos h5]
  rw [if_neg h5, if_neg h5]
  by_cases h6 : board.p 2 = board.p 5 ∧ board.p 5 = board.p 8
  · rw [if_pos h6, if_pos h6]
  rw [if_neg h6, if_neg h6]
  by_cases h7 : board.p 0 = board.p 4 ∧ board.p 4 = board.p 8
  · rw [if_pos h7, if_pos h7]
  rw [if_neg h7, if_neg h7]
  by_cases h8 : board.p 2 = board.p 4 ∧ board.p 4 = board.p 6
  · rw [if_pos h8, if_pos h8]
  rw [if_neg h8, if_neg h8]

theorem boardFullLoopCall_eq (board : TTTBoard) (l : List (Fin 9)) :
    boardFullLoopCall board l = (boardFullLoop board l, board) := by
  induction l with
  | nil => rfl
  | cons i rest ih =>
    simp only [boardFullLoopCall, boardFullLoop]
    split_ifs
    · rfl
    · exact ih

/-- C13: `ttt_check_win` and `ttt_board_full` leave all nine cells of the board
they inspect as they were, they return what the value-level functions return,
and a second call on the board left by the first call gives the same result. -/
theorem check_win_board_full_pure (board : TTTBoard) :
    ((ttt_check_win_call board).2 = board ∧
      (∀ i, (ttt_check_win_call board).2.p i = board.p i) ∧
      (ttt_check_win_call board).1 = ttt_check_win board ∧
      (ttt_check_win_call (ttt_check_win_call board).2).1 = (ttt_check_win_call board).1) ∧
    ((ttt_board_full_call board).2 = board ∧
      (∀ i, (ttt_board_full_call board).2.p i = board.p i) ∧
      (ttt_board_full_call board).1 = ttt_board_full board ∧
      (ttt_board_full_call (ttt_board_full_call board).2).1 =
        (ttt_board_full_call board).1) := by
  have h1 := check_win_call_eq board
  have h2 : ttt_board_full_call board = (ttt_board_full board, board) :=
    boardFullLoopCall_eq board cells
  refine ⟨⟨?_, ?_, ?_, ?_⟩, ?_, ?_, ?_, ?_⟩
  · rw [h1]
  · intro i; rw [h1]
  · rw [h1]
  · simp only [h1]
  · rw [h2]
  · intro i; rw [h2]
  · rw [h2]
  · simp only [h2]

/-! ## The placements of a rollout -/

theorem boardAfter_cons (board : TTTBoard) (m : Fin 9 × TTTPiece)
    (rest : List (Fin 9 × TTTPiece)) :
    boardAfter board (m :: rest) = boardAfter (setCell board m.1 m.2) rest := rfl

/-- A finished `while` loop made a valid sequence of placements, read one random
value per placement, left the board these placements produce, and stopped
either on a winner reported by `ttt_check_win` or on a full board. -/
theorem rolloutLoop_trace (rnd : Nat → Nat) (fuel : Nat) (tmp : TTTBoard)
    (player : TTTPiece) (fm : Int) (k : Nat) (placed : List (Fin 9 × TTTPiece))
    (g : Rollout) (h : rolloutLoop rnd fuel tmp player fm k placed = .ok g) :
    ∃ t, g.placed = placed ++ t ∧ validTrace tmp player t ∧ g.tmp = boardAfter tmp t ∧
      g.next = k + t.length ∧ g.winner = ttt_check_win g.tmp ∧
      (ttt_check_win g.tmp = MARK_NONE → numEmpty g.tmp = 0) := by
  induction fuel generalizing tmp player fm k placed with
  | zero => simp [rolloutLoop] at h
  | succ fuel ih =>
    rcases rolloutLoop_cases rnd fuel tmp player fm k placed with
      ⟨hw, hr⟩ | ⟨hw, he, hr⟩ | ⟨hw, _, i, hi, _, hr⟩
    · rw [hr] at h
      simp only [Except.ok.injEq] at h
      subst h
      exact ⟨[], by simp, trivial, rfl, rfl, rfl, fun hn => absurd hn hw⟩
    · rw [hr] at h
      simp only [Except.ok.injEq] at h
      subst h
      exact ⟨[], by simp, trivial, rfl, rfl, hw.symm, fun _ => he⟩
    · rw [hr] at h
      obtain ⟨t, ht, hv, htmp, hn, hwin, hstop⟩ := ih _ _ _ _ _ h
      refine ⟨(i, player) :: t, ?_, ⟨rfl, hi, hw, hv⟩, ?_, ?_, hwin, hstop⟩
      · rw [ht]; simp
      · rw [htmp]; rfl
      · rw [hn, List.length_cons]; omega

theorem validTrace_length (tmp : TTTBoard) (player : TTTPiece)
    (t : List (Fin 9 × TTTPiece)) (h : validTrace tmp player t) :
    t.length ≤ numEmpty tmp + (if player = MARK_NONE then 1 else 0) := by
  induction t generalizing tmp player with
  | nil => simp
  | cons m rest ih =>
    obtain ⟨_, hi, _, hv⟩ := h
    have hr := ih _ _ hv
    rw [if_neg (nextPlayer_ne_none player)] at hr
    rw [List.length_cons]
    by_cases hp : player = MARK_NONE
    · subst hp
      rw [setCell_none tmp m.1 hi] at hr
      rw [if_pos rfl]
      omega
    · have := numEmpty_setCell tmp m.1 player hi hp
      rw [if_neg hp]
      omega

theorem nextPlayer_nextPlayer (player : TTTPiece) (hp : player = MARK_X ∨ player = MARK_O) :
    nextPlayer (nextPlayer player) = player := by
  rcases hp with rfl | rfl <;> decide

theorem nextPlayer_xo (player : TTTPiece) :
    nextPlayer player = MARK_X ∨ nextPlayer player = MARK_O := by
  cases player <;> decide

theorem nextPlayer_ne_self (player : TTTPiece) : nextPlayer player ≠ player := by
  cases player <;> decide

theorem validTrace_marks (tmp : TTTBoard) (player : TTTPiece)
    (hp : player = MARK_X ∨ player = MARK_O) (t : List (Fin 9 × TTTPiece))
    (h : validTrace tmp player t) (j : Nat) (m : Fin 9 × TTTPiece) (hm : t[j]? = some m) :
    m.2 = if j % 2 = 0 then player else nextPlayer player := by
  induction t generalizing tmp player j with
  | nil => simp at hm
  | cons m0 rest ih =>
    obtain ⟨hm0, _, _, hv⟩ := h
    cases j with
    | zero =>
      simp only [List.getElem?_cons_zero, Option.some.injEq] at hm
      subst hm
      simpa using hm0
    | succ j =>
      simp only [List.getElem?_cons_succ] at hm
      have := ih _ _ (nextPlayer_xo player) hv j hm
      rw [this, nextPlayer_nextPlayer player hp]
      have h2 : j % 2 = 0 ∨ j % 2 = 1 := by omega
      rcases h2 with h2 | h2
      · rw [if_pos h2, if_neg (by omega)]
      · rw [if_neg (by omega), if_pos (by omega)]

theorem validTrace_target (tmp : TTTBoard) (player : TTTPiece)
    (t : List (Fin 9 × TTTPiece)) (h : validTrace tmp player t) (j : Nat)
    (m : Fin 9 × TTTPiece) (hm : t[j]? = some m) :
    (boardAfter tmp (t.take j)).p m.1 = MARK_NONE ∧
    ttt_check_win (boardAfter tmp (t.take j)) = MARK_NONE := by
  induction t generalizing tmp player j with
  | nil => simp at hm
  | cons m0 rest ih =>
    obtain ⟨hm0, hi, hw, hv⟩ := h
    cases j with
    | zero =>
      simp only [List.getElem?_cons_zero, Option.some.injEq] at hm
      subst hm
      exact ⟨hi, hw⟩
    | succ j =>
      simp only [List.getElem?_cons_succ] at hm
      rw [List.take_succ_cons, boardAfter_cons, hm0]
      exact ih _ _ hv j hm

theorem validTrace_frame (tmp : TTTBoard) (player : TTTPiece)
    (t : List (Fin 9 × TTTPiece)) (h : validTrace tmp player t) (i : Fin 9)
    (hi : tmp.p i ≠ MARK_NONE) : (boardAfter tmp t).p i = tmp.p i := by
  induction t generalizing tmp player with
  | nil => rfl
  | cons m0 rest ih =>
    obtain ⟨hm0, hi0, _, hv⟩ := h
    have hne : i ≠ m0.1 := fun hh => hi (by rw [hh]; exact hi0)
    have hset : (setCell tmp m0.1 player).p i = tmp.p i := Function.update_noteq hne _ _
    rw [boardAfter_cons, hm0, ih _ _ hv (by rw [hset]; exact hi), hset]

/-- Every rollout finishes: eleven loop tests are enough on every board. -/
theorem rollout_total (rnd : Nat → Nat) (k : Nat) (board : TTTBoard)
    (currealplayer : TTTPiece) :
    ∃ g, rollout rnd k board currealplayer = .ok g := by
  have h9 := numEmpty_le_nine board
  obtain ⟨g, hg, _⟩ := rolloutLoop_ok rnd 11 board currealplayer (-1) k []
    (by split_ifs <;> omega)
  exact ⟨g, hg⟩

theorem rollout_trace (rnd : Nat → Nat) (k : Nat) (board : TTTBoard)
    (currealplayer : TTTPiece) (g : Rollout)
    (h : rollout rnd k board currealplayer = .ok g) :
    validTrace board currealplayer g.placed ∧ g.tmp = boardAfter board g.placed ∧
      g.next = k + g.placed.length ∧ g.winner = ttt_check_win g.tmp ∧
      (ttt_check_win g.tmp = MARK_NONE → numEmpty g.tmp = 0) := by
  obtain ⟨t, ht, hv, htmp, hn, hwin, hstop⟩ := rolloutLoop_trace rnd _ _ _ _ _ _ g h
  rw [List.nil_append] at ht
  rw [ht]
  exact ⟨hv, htmp, hn, hwin, hstop⟩

/-- C16: a rollout started with perspective `MARK_X` or `MARK_O` finishes; its
placement number `j` (counted from 0) carries the perspective player's mark when
`j` is even and the other player's mark when `j` is odd, so the first placement is
the perspective player's and successive marks alternate; every placement targets
a cell that is empty on the scratch board at that moment; and the final scratch
board agrees with the input board on every cell occupied at the start. -/
theorem rollout_alternates (rnd : Nat → Nat) (k : Nat) (board : TTTBoard)
    (currealplayer : TTTPiece) (hp : currealplayer = MARK_X ∨ currealplayer = MARK_O) :
    ∃ g, rollout rnd k board currealplayer = .ok g ∧
      g.tmp = boardAfter board g.placed ∧
      (∀ j m, g.placed[j]? = some m →
        m.2 = (if j % 2 = 0 then currealplayer else nextPlayer currealplayer) ∧
        (boardAfter board (g.placed.take j)).p m.1 = MARK_NONE) ∧
      (∀ j m m1, g.placed[j]? = some m → g.placed[j + 1]? = some m1 →
        m.2 ≠ m1.2 ∧ m.2 ≠ MARK_NONE ∧ m1.2 ≠ MARK_NONE) ∧
      (∀ i, board.p i ≠ MARK_NONE → g.tmp.p i = board.p i) := by
  obtain ⟨g, hg⟩ := rollout_total rnd k board currealplayer
  obtain ⟨hv, htmp, _, _, _⟩ := rollout_trace rnd k board currealplayer g hg
  have hne : currealplayer ≠ MARK_NONE := by rcases hp with rfl | rfl <;> decide
  refine ⟨g, hg, htmp, ?_, ?_, ?_⟩
  · intro j m hm
    exact ⟨validTrace_marks board currealplayer hp g.placed hv j m hm,
      (validTrace_target board currealplayer g.placed hv j m hm).1⟩
  · intro j m m1 hm hm1
    have h1 := validTrace_marks board currealplayer hp g.placed hv j m hm
    have h2 := validTrace_marks board currealplayer hp g.placed hv (j + 1) m1 hm1
    rw [h1, h2]
    have hj : j % 2 = 0 ∨ j % 2 = 1 := by omega
    rcases hj with hj | hj
    · rw [if_pos hj, if_neg (by omega)]
      exact ⟨(nextPlayer_ne_self currealplayer).symm, hne, nextPlayer_ne_none currealplayer⟩
    · rw [if_neg (by omega), if_pos (by omega)]
      exact ⟨nextPlayer_ne_self currealplayer, nextPlayer_ne_none currealplayer, hne⟩
  · intro i hi
    rw [htmp]
    exact validTrace_frame board currealplayer g.placed hv i hi

theorem rollout_alternates_witness :
    ∃ g, rollout (fun j => j) 0 (boardThreeMarks MARK_X MARK_O) MARK_O = .ok g ∧
      g.tmp = boardAfter (boardThreeMarks MARK_X MARK_O) g.placed ∧
      (∀ j m, g.placed[j]? = some m →
        m.2 = (if j % 2 = 0 then MARK_O else nextPlayer MARK_O) ∧
        (boardAfter (boardThreeMarks MARK_X MARK_O) (g.placed.take j)).p m.1 = MARK_NONE) ∧
      (∀ j m m1, g.placed[j]? = some m → g.placed[j + 1]? = some m1 →
        m.2 ≠ m1.2 ∧ m.2 ≠ MARK_NONE ∧ m1.2 ≠ MARK_NONE) ∧
      (∀ i, (boardThreeMarks MARK_X MARK_O).p i ≠ MARK_NONE →
        g.tmp.p i = (boardThreeMarks MARK_X MARK_O).p i) :=
  rollout_alternates (fun j => j) 0 (boardThreeMarks MARK_X MARK_O) MARK_O (Or.inr rfl)

/-- C15 (evaluation of the code): from `middleRowBoard` with perspective `MARK_X`
and `rand()` constantly 3, the rollout places `MARK_X` on cell 5, which completes
the middle row; `ttt_check_win` still reports no winner because the top row is
empty, and the loop goes on to place `MARK_O` on cell 8 and `MARK_X` on cell 0
before it stops. -/
theorem rollout_places_after_win :
    ttt_check_win middleRowBoard = MARK_NONE ∧
    (∀ l ∈ winLines, ∀ m, m ≠ MARK_NONE → ¬ lineHeldBy middleRowBoard l m) ∧
    rolloutPlaced (fun _ => 3) 0 middleRowBoard MARK_X =
      .ok [(5, MARK_X), (8, MARK_O), (0, MARK_X)] ∧
    rolloutSummary (fun _ => 3) 0 middleRowBoard MARK_X = .ok (MARK_X, 5, 3) ∧
    lineHeldBy (boardAfter middleRowBoard [(5, MARK_X)]) (3, 4, 5) MARK_X ∧
    ttt_check_win (boardAfter middleRowBoard [(5, MARK_X)]) = MARK_NONE := by
  refine ⟨by decide, ?_, by decide, by decide, by decide, by decide⟩
  intro l hl m hm
  revert m
  simp only [winLines, List.mem_cons, List.mem_singleton, List.not_mem_nil, or_false] at hl
  rcases hl with rfl | rfl | rfl | rfl | rfl | rfl | rfl | rfl <;> decide

/-! ## The run as a state transformer -/

theorem playRoundsState_succ (rnd : Nat → Nat) (currealplayer : TTTPiece) (n : Nat)
    (s : RunState) :
    playRoundsState rnd currealplayer (n + 1) s =
      match rollout rnd s.next s.board currealplayer with
      | Except.error e => Except.error e
      | Except.ok g =>
        match scoreRollout s.wincount g.winner currealplayer g.firstmove with
        | Except.error e => Except.error e
        | Except.ok wincount1 =>
          playRoundsState rnd currealplayer n
            ⟨s.board, g.tmp, wincount1, g.next, s.log ++ [g]⟩ := rfl

theorem playRoundsState_error (rnd : Nat → Nat) (currealplayer : TTTPiece) (n : Nat)
    (s : RunState) (e : Fault)
    (h : playRounds rnd s.board currealplayer n s.wincount s.next = .error e) :
    playRoundsState rnd currealplayer n s = .error e := by
  induction n generalizing s with
  | zero => simp [playRounds] at h
  | succ n ih =>
    rw [playRounds] at h
    rw [playRoundsState_succ]
    cases hg : rollout rnd s.next s.board currealplayer with
    | error e1 =>
      rw [hg] at h
      simpa using h
    | ok g =>
      rw [hg] at h
      simp only at h ⊢
      cases hs : scoreRollout s.wincount g.winner currealplayer g.firstmove with
      | error e1 =>
        rw [hs] at h
        simpa using h
      | ok wincount1 =>
        rw [hs] at h
        simp only at h ⊢
        exact ih ⟨s.board, g.tmp, wincount1, g.next, s.log ++ [g]⟩ h

/-- The state transformer computes what `playRounds` computes, never changes the
field `board`, and logs one rollout of the board per round. -/
theorem playRoundsState_ok (rnd : Nat → Nat) (currealplayer : TTTPiece) (n : Nat)
    (s : RunState) (r : (Fin 9 → Int) × Nat)
    (h : playRounds rnd s.board currealplayer n s.wincount s.next = .ok r) :
    ∃ s1 gs, playRoundsState rnd currealplayer n s = .ok s1 ∧ s1.board = s.board ∧
      s1.wincount = r.1 ∧ s1.next = r.2 ∧ s1.log = s.log ++ gs ∧ gs.length = n ∧
      (∀ g ∈ gs, ∃ k1, rollout rnd k1 s.board currealplayer = .ok g ∧
        ∃ i, g.firstmove = ofIdx i) ∧
      (gs = [] → s1.tmp = s.tmp) ∧ (∀ g, gs.getLast? = some g → s1.tmp = g.tmp) := by
  induction n generalizing s with
  | zero =>
    simp only [playRounds, Except.ok.injEq] at h
    subst h
    exact ⟨s, [], rfl, rfl, rfl, rfl, by simp, rfl, by simp, fun _ => rfl, by simp⟩
  | succ n ih =>
    obtain ⟨g, wincount1, hg, hs, hrest⟩ :=
      playRounds_succ_ok rnd s.board currealplayer n _ _ _ h
    obtain ⟨i, hfm, _⟩ := scoreRollout_ok _ _ _ _ _ hs
    obtain ⟨s1, gs, h1, hb, hw, hn, hl, hlen, hall, hnil, hlast⟩ :=
      ih ⟨s.board, g.tmp, wincount1, g.next, s.log ++ [g]⟩ hrest
    have hstep : playRoundsState rnd currealplayer (n + 1) s =
        playRoundsState rnd currealplayer n
          ⟨s.board, g.tmp, wincount1, g.next, s.log ++ [g]⟩ := by
      rw [playRoundsState_succ, hg]
      simp only
      rw [hs]
    refine ⟨s1, g :: gs, by rw [hstep, h1], hb, hw, hn, ?_, by simp [hlen], ?_, by simp, ?_⟩
    · rw [hl]; simp
    · intro g1 hg1
      rcases List.mem_cons.1 hg1 with rfl | hmem
      · exact ⟨s.next, hg, i, hfm⟩
      · exact hall g1 hmem
    · intro g1 hg1
      cases gs with
      | nil =>
        simp only [List.getLast?_singleton, Option.some.injEq] at hg1
        subst hg1
        exact hnil rfl
      | cons g2 rest =>
        rw [List.getLast?_cons_cons] at hg1
        exact hlast g1 hg1

/-! ## Scores stay in the range of `int` -/

theorem playRounds_range (rnd : Nat → Nat) (board : TTTBoard) (currealplayer : TTTPiece)
    (n : Nat) (wincount : Fin 9 → Int) (k : Nat) (r : (Fin 9 → Int) × Nat)
    (h : playRounds rnd board currealplayer n wincount k = .ok r)
    (hlo : ∀ i, INT_MIN ≤ wincount i) : ∀ i, INT_MIN ≤ r.1 i := by
  induction n generalizing wincount k with
  | zero =>
    simp only [playRounds, Except.ok.injEq] at h
    subst h
    exact hlo
  | succ n ih =>
    obtain ⟨g, wincount1, _, hs, hrest⟩ := playRounds_succ_ok rnd board currealplayer n _ _ _ h
    obtain ⟨i, _, hw1⟩ := scoreRollout_ok _ _ _ _ _ hs
    apply ih wincount1 g.next hrest
    intro j
    rw [hw1]
    by_cases hji : j = i
    · subst hji
      rw [Function.update_same]
      exact (wrapInt_range _).1
    · rw [Function.update_noteq hji]
      exact hlo j

theorem initScores_range (board : TTTBoard) (i : Fin 9) : INT_MIN ≤ (initScores board).1 i := by
  rw [initScores_apply]
  unfold INT_MIN
  split_ifs <;> omega

/-- The maximum of nine scores that are all at least `INT_MIN` is attained. -/
theorem bestCandidates_ne_nil_of_range (wincount : Fin 9 → Int)
    (hlo : ∀ i, INT_MIN ≤ wincount i) : bestCandidates wincount ≠ [] := by
  rcases maxLoop_attained wincount cells INT_MIN with h | ⟨j, _, hj⟩
  · have h0 := le_maxScore wincount 0
    have h1 := hlo 0
    unfold maxScore at h0
    rw [h] at h0
    refine List.ne_nil_of_mem ((mem_bestCandidates wincount 0).2 ?_)
    unfold maxScore
    rw [h]
    omega
  · exact List.ne_nil_of_mem ((mem_bestCandidates wincount j).2 hj)

/-- From a board on which `ttt_check_win` reports no winner, the whole function
finishes without a fault for every `count`; with a free cell the result is the
index of a cell with maximal score. -/
theorem run_random_games_state_ok (rnd : Nat → Nat) (k : Nat) (board tmp : TTTBoard)
    (currealplayer : TTTPiece) (count : Int)
    (hw : ttt_check_win board = MARK_NONE) (he : ∃ i, board.p i = MARK_NONE) :
    ∃ r s gs i, runScores rnd k board currealplayer count = .ok r ∧
      playRoundsState rnd currealplayer count.toNat
        ⟨board, tmp, (initScores board).1, k, []⟩ = .ok s ∧
      s.board = board ∧ s.wincount = r.1 ∧ s.next = r.2 ∧ s.log = gs ∧
      gs.length = count.toNat ∧
      (∀ g ∈ gs, ∃ k1, rollout rnd k1 board currealplayer = .ok g ∧
        ∃ i, g.firstmove = ofIdx i) ∧
      (gs = [] → s.tmp = tmp) ∧ (∀ g, gs.getLast? = some g → s.tmp = g.tmp) ∧
      i ∈ bestCandidates r.1 ∧
      ttt_run_random_games rnd k board currealplayer count = .ok (ofIdx i, r.2 + 1) ∧
      ttt_run_random_games_state rnd k board tmp currealplayer count =
        .ok (ofIdx i, ⟨s.board, s.tmp, s.wincount, r.2 + 1, s.log⟩) := by
  obtain ⟨r, hr⟩ := runScores_ok rnd k board currealplayer count he (Or.inl hw)
  obtain ⟨s, gs, hs, hb, hwc, hn, hl, hlen, hall, hnil, hlast⟩ :=
    playRoundsState_ok rnd currealplayer count.toNat
      ⟨board, tmp, (initScores board).1, k, []⟩ r hr
  have hrange := playRounds_range rnd board currealplayer _ _ _ r hr (initScores_range board)
  obtain ⟨i, hi, hsel⟩ := selectBest_mem rnd r.2 r.1 (bestCandidates_ne_nil_of_range r.1 hrange)
  have hflag : ¬ (initScores board).2 = false := by
    rw [Bool.not_eq_false]
    exact (initScores_flag board).2 he
  refine ⟨r, s, gs, i, hr, hs, hb, hwc, hn, by simpa using hl, hlen, hall, hnil, hlast, hi, ?_, ?_⟩
  · rw [run_random_games_of_scores rnd k board currealplayer count r he hr, hsel]
  · unfold ttt_run_random_games_state
    rw [if_neg hflag, hs]
    simp only
    rw [hwc, hn, hsel]

theorem has_free_of_not_full (board : TTTBoard) (h : ttt_board_full board = 0) :
    ∃ i, board.p i = MARK_NONE := by
  by_contra hne
  have hall : ∀ i ∈ cells, board.p i ≠ MARK_NONE := fun i _ hi => hne ⟨i, hi⟩
  have := (boardFullLoop_eq_one board cells).2 hall
  unfold ttt_board_full at h
  omega

theorem best_candidate_empty (rnd : Nat → Nat) (k : Nat) (board : TTTBoard)
    (currealplayer : TTTPiece) (count : Int) (r : (Fin 9 → Int) × Nat)
    (hr : runScores rnd k board currealplayer count = .ok r) (hc : count ≤ 214748364)
    (he : ∃ i, board.p i = MARK_NONE) (i : Fin 9) (hi : i ∈ bestCandidates r.1) :
    board.p i = MARK_NONE := by
  obtain ⟨i0, hi0⟩ := he
  by_contra hne
  have hocc := (playRounds_occupied rnd board currealplayer _ _ _ r hr).2
  have h1 : r.1 i = INT_MIN := by
    rw [hocc i hne, initScores_apply, if_neg hne]
  have h2 := (mem_bestCandidates r.1 i).1 hi
  have h3 := le_maxScore r.1 i0
  have h4 := runScores_empty_gt rnd k board currealplayer count r hr hc i0 hi0
  omega

theorem run_random_games_state_full (rnd : Nat → Nat) (k : Nat) (board tmp : TTTBoard)
    (currealplayer : TTTPiece) (count : Int) (h : ∀ i, board.p i ≠ MARK_NONE) :
    ttt_run_random_games_state rnd k board tmp currealplayer count =
      .ok (-1, ⟨board, tmp, (initScores board).1, k, []⟩) := by
  unfold ttt_run_random_games_state
  rw [if_pos ((initScores_flag_false board).2 h)]

/-! ## Frame: the caller's board -/

/-- C12: whenever `ttt_run_random_games` returns, the caller's board is cell for
cell the board it was called with, and the returned position is the one the
value-level function computes; every rollout worked on a scratch board that
started as a copy of the caller's board and received all of its placements
(`g.tmp` is the board after `g.placed`), and `tmp` ends as the scratch board of
the last rollout.  The function does return from every board on which
`ttt_check_win` reports no winner. -/
theorem run_random_games_keeps_board (rnd : Nat → Nat) (k : Nat) (board tmp : TTTBoard)
    (currealplayer : TTTPiece) (count : Int) :
    (∀ res s, ttt_run_random_games_state rnd k board tmp currealplayer count = .ok (res, s) →
      s.board = board ∧ (∀ i, s.board.p i = board.p i) ∧
      ttt_run_random_games rnd k board currealplayer count = .ok (res, s.next) ∧
      (∀ g ∈ s.log, g.tmp = boardAfter board g.placed ∧
        validTrace board currealplayer g.placed) ∧
      (s.log = [] → s.tmp = tmp) ∧ (∀ g, s.log.getLast? = some g → s.tmp = g.tmp)) ∧
    (ttt_check_win board = MARK_NONE →
      ∃ res s, ttt_run_random_games_state rnd k board tmp currealplayer count =
        .ok (res, s)) := by
  constructor
  · intro res s h
    by_cases hflag : (initScores board).2 = false
    · have hpure : ttt_run_random_games rnd k board currealplayer count = .ok (-1, k) := by
        unfold ttt_run_random_games
        rw [if_pos hflag]
      unfold ttt_run_random_games_state at h
      rw [if_pos hflag] at h
      simp only [Except.ok.injEq, Prod.mk.injEq] at h
      obtain ⟨h1, h2⟩ := h
      subst h1 h2
      exact ⟨rfl, fun _ => rfl, hpure, by simp, fun _ => rfl, by simp⟩
    · have he : ∃ i, board.p i = MARK_NONE := by
        rw [Bool.not_eq_false] at hflag
        exact (initScores_flag board).1 hflag
      unfold ttt_run_random_games_state at h
      rw [if_neg hflag] at h
      cases hr : runScores rnd k board currealplayer count with
      | error e =>
        rw [playRoundsState_error rnd currealplayer count.toNat
          ⟨board, tmp, (initScores board).1, k, []⟩ e hr] at h
        simp at h
      | ok r =>
        obtain ⟨s1, gs, hs1, hb, hwc, hn, hl, _, hall, hnil, hlast⟩ :=
          playRoundsState_ok rnd currealplayer count.toNat
            ⟨board, tmp, (initScores board).1, k, []⟩ r hr
        rw [hs1] at h
        simp only at h
        cases hsel : selectBest rnd s1.next s1.wincount with
        | error e => rw [hsel] at h; simp at h
        | ok rr =>
          rw [hsel] at h
          simp only [Except.ok.injEq, Prod.mk.injEq] at h
          obtain ⟨h1, h2⟩ := h
          subst h1 h2
          simp only [List.nil_append] at hl
          refine ⟨hb, fun i => by rw [hb], ?_, ?_, ?_, ?_⟩
          · rw [run_random_games_of_scores rnd k board currealplayer count r he hr,
              ← hwc, ← hn, hsel]
          · intro g hg
            simp only at hg
            rw [hl] at hg
            obtain ⟨k1, hk1, _⟩ := hall g hg
            have ht := rollout_trace rnd k1 board currealplayer g hk1
            exact ⟨ht.2.1, ht.1⟩
          · intro hnl
            simp only at hnl ⊢
            exact hnil (by rw [← hl]; exact hnl)
          · intro g hg
            simp only at hg ⊢
            rw [hl] at hg
            exact hlast g hg
  · intro hw
    by_cases he : ∃ i, board.p i = MARK_NONE
    · obtain ⟨_, s, _, i, _, _, _, _, _, _, _, _, _, _, _, _, hst⟩ :=
        run_random_games_state_ok rnd k board tmp currealplayer count hw he
      exact ⟨_, _, hst⟩
    · exact ⟨_, _, run_random_games_state_full rnd k board tmp currealplayer count
        (fun i hi => he ⟨i, hi⟩)⟩

theorem run_random_games_keeps_board_witness :
    ∃ res s, ttt_run_random_games_state (fun j => j) 0 (boardThreeMarks MARK_X MARK_O)
        drawnBoard MARK_O ROUNDS = .ok (res, s) ∧
      s.board = boardThreeMarks MARK_X MARK_O :=
  (run_random_games_keeps_board (fun j => j) 0 (boardThreeMarks MARK_X MARK_O) drawnBoard
      MARK_O ROUNDS).2 (by decide) |>.elim fun res h => h.elim fun s hs =>
    ⟨res, s, hs,
      ((run_random_games_keeps_board (fun j => j) 0 (boardThreeMarks MARK_X MARK_O)
        drawnBoard MARK_O ROUNDS).1 res s hs).1⟩

/-! ## Number of rollouts and of placements -/

/-- C11 (counterexample): with `count = 1`, no rollout is run on the full board
`drawnBoard` (line 170 returns first); on `wonBoard` the first round writes
`wincount[-1]`; and with perspective `MARK_NONE` the rollout on `oneFreeBoard`,
which has one empty cell, makes two placements (the first one writes
`MARK_NONE`). -/
theorem evaluate_rollouts_counterexample :
    ((∀ i, drawnBoard.p i ≠ MARK_NONE) ∧
      rolloutsRun (fun _ => 0) 0 drawnBoard drawnBoard MARK_X 1 = .ok 0) ∧
    (wonBoard.p 3 = MARK_NONE ∧
      rolloutsRun (fun _ => 0) 0 wonBoard wonBoard MARK_X 1 = .error Fault.outOfBounds) ∧
    (ttt_check_win oneFreeBoard = MARK_NONE ∧ numEmpty oneFreeBoard = 1 ∧
      rolloutPlaced (fun _ => 0) 0 oneFreeBoard MARK_NONE =
        .ok [(8, MARK_NONE), (8, MARK_X)]) := by
  refine ⟨⟨by decide, by decide⟩, ⟨by decide, by decide⟩, by decide, by decide, by decide⟩

/-- C11 (amended): for a perspective player `MARK_X` or `MARK_O` and `count ≥ 0`:
from a board with a free cell on which `ttt_check_win` reports no winner, the
function returns after exactly `count` rollouts, each of which makes at most as
many placements as the board has empty cells (at most 9); on a board without a
free cell it returns without running a rollout. -/
theorem evaluate_runs_count_rollouts (rnd : Nat → Nat) (k : Nat) (board tmp : TTTBoard)
    (currealplayer : TTTPiece) (count : Int)
    (hp : currealplayer = MARK_X ∨ currealplayer = MARK_O) (hc : 0 ≤ count) :
    (ttt_check_win board = MARK_NONE → (∃ i, board.p i = MARK_NONE) →
      ∃ res s, ttt_run_random_games_state rnd k board tmp currealplayer count =
          .ok (res, s) ∧
        ((s.log.length : Nat) : Int) = count ∧
        rolloutsRun rnd k board tmp currealplayer count = .ok count.toNat ∧
        ∀ g ∈ s.log, g.placed.length ≤ numEmpty board ∧ g.placed.length ≤ 9) ∧
    ((∀ i, board.p i ≠ MARK_NONE) →
      rolloutsRun rnd k board tmp currealplayer count = .ok 0) := by
  constructor
  · intro hw he
    obtain ⟨r, s, gs, i, _, _, _, _, _, hl, hlen, hall, _, _, _, _, hst⟩ :=
      run_random_games_state_ok rnd k board tmp currealplayer count hw he
    have hne : currealplayer ≠ MARK_NONE := by rcases hp with rfl | rfl <;> decide
    refine ⟨_, _, hst, ?_, ?_, ?_⟩
    · simp only
      rw [hl, hlen]
      exact Int.toNat_of_nonneg hc
    · unfold rolloutsRun
      rw [hst]
      simp only
      rw [hl, hlen]
    · intro g hg
      simp only at hg
      rw [hl] at hg
      obtain ⟨k1, hk1, _⟩ := hall g hg
      have hv := (rollout_trace rnd k1 board currealplayer g hk1).1
      have hlen1 := validTrace_length board currealplayer g.placed hv
      rw [if_neg hne] at hlen1
      have h9 := numEmpty_le_nine board
      omega
  · intro hfull
    unfold rolloutsRun
    rw [run_random_games_state_full rnd k board tmp currealplayer count hfull]
    rfl

theorem evaluate_runs_count_rollouts_witness :
    rolloutsRun (fun j => j) 0 (boardThreeMarks MARK_X MARK_O) drawnBoard MARK_O ROUNDS =
      .ok 30000 :=
  ((evaluate_runs_count_rollouts (fun j => j) 0 (boardThreeMarks MARK_X MARK_O) drawnBoard
      MARK_O ROUNDS (Or.inr rfl) (by decide)).1 (by decide) ⟨2, by decide⟩).elim
    fun _ h => h.elim fun _ hs => hs.2.2.1

/-! ## The driver's precondition -/

/-- C14 (counterexample): `collisionBoard` satisfies the driver's precondition (no
winner reported, not full), yet with `count = 858993468` and the stream
`collisionRnd` the returned index 1 names a cell occupied by `MARK_X`, so the
assertion of line 277 fails. -/
theorem driver_assert_counterexample :
    ttt_check_win collisionBoard = MARK_NONE ∧ ttt_board_full collisionBoard = 0 ∧
    ttt_run_random_games collisionRnd 0 collisionBoard MARK_X 858993468 =
      .ok (1, 3006477135) ∧
    toIdx 1 = some 1 ∧ collisionBoard.p 1 ≠ MARK_NONE := by
  refine ⟨by decide, by decide, ?_, by decide, by decide⟩
  rw [run_random_games_of_scores collisionRnd 0 collisionBoard MARK_X 858993468 _
    ⟨0, by decide⟩ collision_scores]
  decide

/-- C14 (amended): when `ttt_check_win` reports no winner and the board is not
full, then for every perspective player, every `count` and every random stream
the function returns without a fault (so the assertions of lines 183 and 216
hold): it runs `count` rollouts, each of which makes at least one placement, on
cells that are empty at that moment, and records as `firstmove` an index in
`0..8` of a cell empty on the board; the tied set is non-empty; the result is not
`-1`; and when `count ≤ 214748364` the returned cell is empty on the board (the
assertion of line 277). -/
theorem driver_precondition_safe (rnd : Nat → Nat) (k : Nat) (board tmp : TTTBoard)
    (currealplayer : TTTPiece) (count : Int)
    (hw : ttt_check_win board = MARK_NONE) (hfull : ttt_board_full board = 0) :
    ∃ res s, ttt_run_random_games_state rnd k board tmp currealplayer count =
        .ok (res, s) ∧
      ttt_run_random_games rnd k board currealplayer count = .ok (res, s.next) ∧
      s.log.length = count.toNat ∧
      (∀ g ∈ s.log, g.placed ≠ [] ∧ validTrace board currealplayer g.placed ∧
        ∃ i, toIdx g.firstmove = some i ∧ 0 ≤ g.firstmove ∧ g.firstmove ≤ 8 ∧
          board.p i = MARK_NONE) ∧
      bestCandidates s.wincount ≠ [] ∧
      res ≠ -1 ∧
      ∃ i, res = ofIdx i ∧ toIdx res = some i ∧
        (count ≤ 214748364 → board.p i = MARK_NONE) := by
  have he := has_free_of_not_full board hfull
  obtain ⟨r, s, gs, i, hr, _, _, hwc, _, hl, hlen, hall, _, _, hi, hpure, hst⟩ :=
    run_random_games_state_ok rnd k board tmp currealplayer count hw he
  have hne0 : numEmpty board ≠ 0 := by
    rw [Ne, numEmpty_eq_zero]
    obtain ⟨i0, hi0⟩ := he
    exact fun hall0 => hall0 i0 hi0
  refine ⟨_, _, hst, hpure, by simp only; rw [hl, hlen], ?_, ?_, ofIdx_ne_neg_one i, i, rfl,
    toIdx_ofIdx i, ?_⟩
  · intro g hg
    simp only at hg
    rw [hl] at hg
    obtain ⟨k1, hk1, _⟩ := hall g hg
    obtain ⟨g1, j, hg1, hfm, hj, _, _⟩ := rollout_firstmove rnd k1 board currealplayer hw hne0
    rw [hk1] at hg1
    simp only [Except.ok.injEq] at hg1
    subst hg1
    refine ⟨?_, (rollout_trace rnd k1 board currealplayer g hk1).1, j, ?_, ?_, ?_, hj⟩
    · rcases (rollout_result rnd k1 board currealplayer g hk1).2 with
        ⟨_, hm1, _⟩ | ⟨i1, rest, hpl, _⟩
      · rw [hfm] at hm1
        exact absurd hm1 (ofIdx_ne_neg_one j)
      · rw [hpl]; simp
    · rw [hfm, toIdx_ofIdx]
    · rw [hfm]; unfold ofIdx; omega
    · rw [hfm]; unfold ofIdx; omega
  · simp only
    rw [hwc]
    exact List.ne_nil_of_mem hi
  · intro hc
    exact best_candidate_empty rnd k board currealplayer count r hr hc he i hi

theorem driver_precondition_safe_witness :
    ∃ res s, ttt_run_random_games_state (fun j => j) 0 (boardThreeMarks MARK_X MARK_O)
        drawnBoard MARK_O ROUNDS = .ok (res, s) ∧
      ttt_run_random_games (fun j => j) 0 (boardThreeMarks MARK_X MARK_O) MARK_O ROUNDS =
        .ok (res, s.next) ∧
      s.log.length = ROUNDS.toNat ∧
      (∀ g ∈ s.log, g.placed ≠ [] ∧ validTrace (boardThreeMarks MARK_X MARK_O) MARK_O g.placed ∧
        ∃ i, toIdx g.firstmove = some i ∧ 0 ≤ g.firstmove ∧ g.firstmove ≤ 8 ∧
          (boardThreeMarks MARK_X MARK_O).p i = MARK_NONE) ∧
      bestCandidates s.wincount ≠ [] ∧
      res ≠ -1 ∧
      ∃ i, res = ofIdx i ∧ toIdx res = some i ∧
        (ROUNDS ≤ 214748364 → (boardThreeMarks MARK_X MARK_O).p i = MARK_NONE) :=
  driver_precondition_safe (fun j => j) 0 (boardThreeMarks MARK_X MARK_O) drawnBoard MARK_O
    ROUNDS (by decide) (by decide)

/-! ## Score bounds for at most 214748364 rounds -/

theorem overflowInRounds_false (rnd : Nat → Nat) (board : TTTBoard)
    (currealplayer : TTTPiece) (n : Nat) (wincount : Fin 9 → Int) (k : Nat) (m : Int)
    (hm : 0 ≤ m) (hmn : 10 * (m + n) < 2147483648)
    (hb : ∀ i, board.p i = MARK_NONE → -10 * m ≤ wincount i ∧ wincount i ≤ m) :
    overflowInRounds rnd board currealplayer n wincount k = false := by
  induction n generalizing wincount k m with
  | zero => rfl
  | succ n ih =>
    rw [overflowInRounds]
    cases hg : rollout rnd k board currealplayer with
    | error e => rfl
    | ok g =>
      simp only
      cases hi : toIdx g.firstmove with
      | none => rfl
      | some i =>
        simp only
        have hie : board.p i = MARK_NONE :=
          rollout_firstmove_empty rnd k board currealplayer g i hg hi
        have hpts := points_range g.winner currealplayer
        have hbi := hb i hie
        have hcast : ((n + 1 : Nat) : Int) = (n : Int) + 1 := by push_cast; rfl
        rw [hcast] at hmn
        have hnn : (0 : Int) ≤ n := Int.ofNat_nonneg n
        have hlo : INT_MIN ≤ wincount i + points g.winner currealplayer := by
          unfold INT_MIN; omega
        have hhi : wincount i + points g.winner currealplayer ≤ INT_MAX := by
          unfold INT_MAX; omega
        rw [wrapInt_of_range _ hlo hhi, Bool.or_eq_false_iff]
        constructor
        · rw [decide_eq_false_iff_not]
          omega
        · apply ih _ _ (m + 1) (by omega) (by omega)
          intro j hj
          by_cases hji : j = i
          · subst hji
            rw [Function.update_same]
            omega
          · rw [Function.update_noteq hji]
            have := hb j hj
            omega

theorem runScores_bounds (rnd : Nat → Nat) (k : Nat) (board : TTTBoard)
    (currealplayer : TTTPiece) (count : Int)
    (hw : ttt_check_win board = MARK_NONE) (he : ∃ i, board.p i = MARK_NONE)
    (h0 : 0 ≤ count) (hc : count ≤ 214748364) :
    ∃ r, runScores rnd k board currealplayer count = .ok r ∧
      ∀ i, board.p i = MARK_NONE →
        -10 * count ≤ r.1 i ∧ r.1 i ≤ count ∧ r.1 i ≠ INT_MIN := by
  obtain ⟨r, hr⟩ := runScores_ok rnd k board currealplayer count he (Or.inl hw)
  refine ⟨r, hr, ?_⟩
  intro i hi
  have hn : ((count.toNat : Nat) : Int) = count := Int.toNat_of_nonneg h0
  have hb := playRounds_bounds rnd board currealplayer _ _ _ r 0 hr (le_refl _)
    (by omega) (fun j hj => by rw [initScores_apply, if_pos hj]; omega) i hi
  rw [hn] at hb
  unfold INT_MIN
  omega

/-- C18: from a board with a free cell on which `ttt_check_win` reports no
winner, for `0 ≤ count ≤ 214748364` the rounds finish and every empty cell's
score `s` satisfies `-10 * count ≤ s ≤ count`; no addition to an accumulator
overflows, and after any number `m ≤ count` of rounds no empty cell's score
equals `INT_MIN`. -/
theorem scores_bounded_no_overflow (rnd : Nat → Nat) (k : Nat) (board : TTTBoard)
    (currealplayer : TTTPiece) (count : Int)
    (hw : ttt_check_win board = MARK_NONE) (he : ∃ i, board.p i = MARK_NONE)
    (h0 : 0 ≤ count) (hc : count ≤ 214748364) :
    (∃ r, runScores rnd k board currealplayer count = .ok r ∧
      ∀ i, board.p i = MARK_NONE →
        -10 * count ≤ r.1 i ∧ r.1 i ≤ count ∧ r.1 i ≠ INT_MIN) ∧
    overflowInRounds rnd board currealplayer count.toNat (initScores board).1 k = false ∧
    (∀ m : Int, 0 ≤ m → m ≤ count →
      ∃ r, runScores rnd k board currealplayer m = .ok r ∧
        ∀ i, board.p i = MARK_NONE → -10 * m ≤ r.1 i ∧ r.1 i ≤ m ∧ r.1 i ≠ INT_MIN) := by
  refine ⟨runScores_bounds rnd k board currealplayer count hw he h0 hc, ?_, ?_⟩
  · have hn : ((count.toNat : Nat) : Int) = count := Int.toNat_of_nonneg h0
    exact overflowInRounds_false rnd board currealplayer _ _ k 0 (le_refl _) (by omega)
      (fun j hj => by rw [initScores_apply, if_pos hj]; omega)
  · intro m hm0 hmc
    exact runScores_bounds rnd k board currealplayer m hw he hm0 (by omega)

theorem scores_bounded_no_overflow_witness :
    (∃ r, runScores (fun j => j) 0 (boardThreeMarks MARK_X MARK_O) MARK_O ROUNDS = .ok r ∧
      ∀ i, (boardThreeMarks MARK_X MARK_O).p i = MARK_NONE →
        -10 * ROUNDS ≤ r.1 i ∧ r.1 i ≤ ROUNDS ∧ r.1 i ≠ INT_MIN) ∧
    overflowInRounds (fun j => j) (boardThreeMarks MARK_X MARK_O) MARK_O ROUNDS.toNat
      (initScores (boardThreeMarks MARK_X MARK_O)).1 0 = false :=
  ⟨(scores_bounded_no_overflow (fun j => j) 0 (boardThreeMarks MARK_X MARK_O) MARK_O ROUNDS
      (by decide) ⟨2, by decide⟩ (by decide) (by decide)).1,
    (scores_bounded_no_overflow (fun j => j) 0 (boardThreeMarks MARK_X MARK_O) MARK_O ROUNDS
      (by decide) ⟨2, by decide⟩ (by decide) (by decide)).2.1⟩

/-! ## Exchanging the two players -/

theorem swapPiece_injective {x y : TTTPiece} (h : swapPiece x = swapPiece y) : x = y := by
  cases x <;> cases y <;> first | rfl | (exact absurd h (by decide))

theorem swapPiece_eq_none (x : TTTPiece) : swapPiece x = MARK_NONE ↔ x = MARK_NONE := by
  cases x <;> decide

theorem nextPlayer_swapPiece (player : TTTPiece) (hp : player ≠ MARK_NONE) :
    nextPlayer (swapPiece player) = swapPiece (nextPlayer player) := by
  cases player
  · exact absurd rfl hp
  · rfl
  · rfl

theorem points_swapPiece (winner currealplayer : TTTPiece) :
    points (swapPiece winner) (swapPiece currealplayer) = points winner currealplayer := by
  cases winner <;> cases currealplayer <;> rfl

theorem check_win_swapBoard (board : TTTBoard) :
    ttt_check_win (swapBoard board) = swapPiece (ttt_check_win board) := by
  unfold ttt_check_win
  dsimp only
  by_cases h1 : board.p 0 = board.p 1 ∧ board.p 1 = board.p 2
  · have g1 : (swapBoard board).p 0 = (swapBoard board).p 1 ∧
        (swapBoard board).p 1 = (swapBoard board).p 2 :=
      ⟨congrArg swapPiece h1.1, congrArg swapPiece h1.2⟩
    rw [if_pos h1, if_pos g1]
    rfl
  have g1 : ¬ ((swapBoard board).p 0 = (swapBoard board).p 1 ∧
      (swapBoard board).p 1 = (swapBoard board).p 2) :=
    fun hh => h1 ⟨swapPiece_injective hh.1, swapPiece_injective hh.2⟩
  rw [if_neg h1, if_neg g1]
  by_cases h2 : board.p 3 = board.p 4 ∧ board.p 4 = board.p 5
  · have g2 : (swapBoard board).p 3 = (swapBoard board).p 4 ∧
        (swapBoard board).p 4 = (swapBoard board).p 5 :=
      ⟨congrArg swapPiece h2.1, congrArg swapPiece h2.2⟩
    rw [if_pos h2, if_pos g2]
    rfl
  have g2 : ¬ ((swapBoard board).p 3 = (swapBoard board).p 4 ∧
      (swapBoard board).p 4 = (swapBoard board).p 5) :=
    fun hh => h2 ⟨swapPiece_injective hh.1, swapPiece_injective hh.2⟩
  rw [if_neg h2, if_neg g2]
  by_cases h3 : board.p 6 = board.p 7 ∧ board.p 7 = board.p 8
  · have g3 : (swapBoard board).p 6 = (swapBoard board).p 7 ∧
        (swapBoard board).p 7 = (swapBoard board).p 8 :=
      ⟨congrArg swapPiece h3.1, congrArg swapPiece h3.2⟩
    rw [if_pos h3, if_pos g3]
    rfl
  have g3 : ¬ ((swapBoard board).p 6 = (swapBoard board).p 7 ∧
      (swapBoard board).p 7 = (swapBoard board).p 8) :=
    fun hh => h3 ⟨swapPiece_injective hh.1, swapPiece_injective hh.2⟩
  rw [if_neg h3, if_neg g3]
  by_cases h4 : board.p 0 = board.p 3 ∧ board.p 3 = board.p 6
  · have g4 : (swapBoard board).p 0 = (swapBoard board).p 3 ∧
        (swapBoard board).p 3 = (swapBoard board).p 6 :=
      ⟨congrArg swapPiece h4.1, congrArg swapPiece h4.2⟩
    rw [if_pos h4, if_pos g4]
    rfl
  have g4 : ¬ ((swapBoard board).p 0 = (swapBoard board).p 3 ∧
      (swapBoard board).p 3 = (swapBoard board).p 6) :=
    fun hh => h4 ⟨swapPiece_injective hh.1, swapPiece_injective hh.2⟩
  rw [if_neg h4, if_neg g4]
  by_cases h5 : board.p 1 = board.p 4 ∧ board.p 4 = board.p 7
  · have g5 : (swapBoard board).p 1 = (swapBoard board).p 4 ∧
        (swapBoard board).p 4 = (swapBoard board).p 7 :=
      ⟨congrArg swapPiece h5.1, congrArg swapPiece h5.2⟩
    rw [if_pos h5, if_pos g5]
    rfl
  have g5 : ¬ ((swapBoard board).p 1 = (swapBoard board).p 4 ∧
      (swapBoard board).p 4 = (swapBoard board).p 7) :=
    fun hh => h5 ⟨swapPiece_injective hh.1, swapPiece_injective hh.2⟩
  rw [if_neg h5, if_neg g5]
  by_cases h6 : board.p 2 = board.p 5 ∧ board.p 5 = board.p 8
  · have g6 : (swapBoard board).p 2 = (swapBoard board).p 5 ∧
        (swapBoard board).p 5 = (swapBoard board).p 8 :=
      ⟨congrArg swapPiece h6.1, congrArg swapPiece h6.2⟩
    rw [if_pos h6, if_pos g6]
    rfl
  have g6 : ¬ ((swapBoard board).p 2 = (swapBoard board).p 5 ∧
      (swapBoard board).p 5 = (swapBoard board).p 8) :=
    fun hh => h6 ⟨swapPiece_injective hh.1, swapPiece_injective hh.2⟩
  rw [if_neg h6, if_neg g6]
  by_cases h7 : board.p 0 = board.p 4 ∧ board.p 4 = board.p 8
  · have g7 : (swapBoard board).p 0 = (swapBoard board).p 4 ∧
        (swapBoard board).p 4 = (swapBoard board).p 8 :=
      ⟨congrArg swapPiece h7.1, congrArg swapPiece h7.2⟩
    rw [if_pos h7, if_pos g7]
    rfl
  have g7 : ¬ ((swapBoard board).p 0 = (swapBoard board).p 4 ∧
      (swapBoard board).p 4 = (swapBoard board).p 8) :=
    fun hh => h7 ⟨swapPiece_injective hh.1, swapPiece_injective hh.2⟩
  rw [if_neg h7, if_neg g7]
  by_cases h8 : board.p 2 = board.p 4 ∧ board.p 4 = board.p 6
  · have g8 : (swapBoard board).p 2 = (swapBoard board).p 4 ∧
        (swapBoard board).p 4 = (swapBoard board).p 6 :=
      ⟨congrArg swapPiece h8.1, congrArg swapPiece h8.2⟩
    rw [if_pos h8, if_pos g8]
    rfl
  have g8 : ¬ ((swapBoard board).p 2 = (swapBoard board).p 4 ∧
      (swapBoard board).p 4 = (swapBoard board).p 6) :=
    fun hh => h8 ⟨swapPiece_injective hh.1, swapPiece_injective hh.2⟩
  rw [if_neg h8, if_neg g8]
  rfl

theorem emptyCandidates_swapBoard (board : TTTBoard) :
    emptyCandidates (swapBoard board) = emptyCandidates board := by
  rw [emptyCandidates_eq, emptyCandidates_eq]
  apply List.filter_congr
  intro i _
  have : (swapBoard board).p i = swapPiece (board.p i) := rfl
  rw [this, decide_eq_decide]
  exact swapPiece_eq_none _

theorem numEmpty_swapBoard (board : TTTBoard) : numEmpty (swapBoard board) = numEmpty board := by
  unfold numEmpty
  rw [emptyCandidates_swapBoard]

theorem choose_random_move_swapBoard (rnd : Nat → Nat) (k : Nat) (board : TTTBoard) :
    ttt_choose_random_move rnd k (swapBoard board) = ttt_choose_random_move rnd k board := by
  have hcand := emptyCandidates_swapBoard board
  have key : ∀ (l l1 : List (Fin 9)) (_ : l = l1) (hl : l.length ≠ 0) (hl1 : l1.length ≠ 0),
      l.get ⟨rnd k % l.length, Nat.mod_lt _ (Nat.pos_of_ne_zero hl)⟩ =
        l1.get ⟨rnd k % l1.length, Nat.mod_lt _ (Nat.pos_of_ne_zero hl1)⟩ := by
    intro l l1 h hl hl1
    subst h
    rfl
  by_cases he : (emptyCandidates board).length = 0
  · rw [choose_random_move_of_empty rnd k board he,
      choose_random_move_of_empty rnd k (swapBoard board) (by rw [hcand]; exact he)]
  · have he1 : (emptyCandidates (swapBoard board)).length ≠ 0 := by rw [hcand]; exact he
    rw [choose_random_move_of_pos rnd k board he,
      choose_random_move_of_pos rnd k (swapBoard board) he1, key _ _ hcand he1 he]

theorem setCell_swapBoard (board : TTTBoard) (i : Fin 9) (q : TTTPiece) :
    setCell (swapBoard board) i (swapPiece q) = swapBoard (setCell board i q) := by
  apply TTTBoard.ext
  funext j
  by_cases hj : j = i
  · subst hj
    simp [setCell, swapBoard]
  · simp [setCell, swapBoard, Function.update_noteq hj]

theorem rolloutLoop_swap (rnd : Nat → Nat) (fuel : Nat) (tmp : TTTBoard)
    (player : TTTPiece) (hp : player ≠ MARK_NONE) (fm : Int) (k : Nat)
    (placed : List (Fin 9 × TTTPiece)) :
    rolloutLoop rnd fuel (swapBoard tmp) (swapPiece player) fm k
        (placed.map (fun m => (m.1, swapPiece m.2))) =
      match rolloutLoop rnd fuel tmp player fm k placed with
      | Except.error e => Except.error e
      | Except.ok g => Except.ok (swapRollout g) := by
  induction fuel generalizing tmp player fm k placed with
  | zero => rfl
  | succ fuel ih =>
    rcases rolloutLoop_cases rnd fuel tmp player fm k placed with
      ⟨hw, hr⟩ | ⟨hw, he, hr⟩ | ⟨hw, _, i, hi, hc, hr⟩
    · have hw1 : ttt_check_win (swapBoard tmp) ≠ MARK_NONE := by
        rw [check_win_swapBoard, Ne, swapPiece_eq_none]
        exact hw
      rw [hr, rolloutLoop_win rnd fuel _ _ _ _ _ hw1, check_win_swapBoard]
      rfl
    · have hw1 : ttt_check_win (swapBoard tmp) = MARK_NONE := by
        rw [check_win_swapBoard, hw]
        rfl
      rw [hr, rolloutLoop_full rnd fuel _ _ _ _ _ hw1 (by rw [numEmpty_swapBoard]; exact he)]
      rfl
    · have hw1 : ttt_check_win (swapBoard tmp) = MARK_NONE := by
        rw [check_win_swapBoard, hw]
        rfl
      have hi1 : (swapBoard tmp).p i = MARK_NONE := by
        have : (swapBoard tmp).p i = swapPiece (tmp.p i) := rfl
        rw [this, hi]
        rfl
      have hc1 : ttt_choose_random_move rnd k (swapBoard tmp) = (ofIdx i, k + 1) := by
        rw [choose_random_move_swapBoard, hc]
      rw [hr, rolloutLoop_move rnd fuel _ _ _ _ _ hw1 i hc1 hi1, setCell_swapBoard,
        nextPlayer_swapPiece player hp]
      have hmap : placed.map (fun m => (m.1, swapPiece m.2)) ++ [(i, swapPiece player)] =
          (placed ++ [(i, player)]).map (fun m => (m.1, swapPiece m.2)) := by
        simp
      rw [hmap]
      exact ih _ _ (nextPlayer_ne_none player) _ _ _

theorem rollout_swap (rnd : Nat → Nat) (k : Nat) (board : TTTBoard)
    (currealplayer : TTTPiece) (hp : currealplayer ≠ MARK_NONE) :
    rollout rnd k (swapBoard board) (swapPiece currealplayer) =
      match rollout rnd k board currealplayer with
      | Except.error e => Except.error e
      | Except.ok g => Except.ok (swapRollout g) :=
  rolloutLoop_swap rnd 11 board currealplayer hp (-1) k []

theorem playRounds_swap (rnd : Nat → Nat) (board : TTTBoard) (currealplayer : TTTPiece)
    (hp : currealplayer ≠ MARK_NONE) (n : Nat) (wincount : Fin 9 → Int) (k : Nat) :
    playRounds rnd (swapBoard board) (swapPiece currealplayer) n wincount k =
      playRounds rnd board currealplayer n wincount k := by
  induction n generalizing wincount k with
  | zero => rfl
  | succ n ih =>
    rw [playRounds, playRounds, rollout_swap rnd k board currealplayer hp]
    cases hg : rollout rnd k board currealplayer with
    | error e => rfl
    | ok g =>
      simp only
      have hs : scoreRollout wincount (swapRollout g).winner (swapPiece currealplayer)
          (swapRollout g).firstmove =
          scoreRollout wincount g.winner currealplayer g.firstmove := by
        unfold scoreRollout swapRollout
        simp only [points_swapPiece]
      rw [hs]
      cases hsc : scoreRollout wincount g.winner currealplayer g.firstmove with
      | error e => rfl
      | ok wincount1 =>
        simp only
        exact ih wincount1 g.next

theorem initLoop_swapBoard (board : TTTBoard) (l : List (Fin 9)) (s : (Fin 9 → Int) × Bool) :
    initLoop (swapBoard board) l s = initLoop board l s := by
  induction l generalizing s with
  | nil => rfl
  | cons i rest ih =>
    have hi : (swapBoard board).p i = MARK_NONE ↔ board.p i = MARK_NONE :=
      swapPiece_eq_none (board.p i)
    simp only [initLoop, ih]
    by_cases hb : board.p i = MARK_NONE
    · rw [if_pos hb, if_pos (hi.2 hb)]
    · rw [if_neg hb, if_neg (fun hh => hb (hi.1 hh))]

theorem initScores_swapBoard (board : TTTBoard) :
    initScores (swapBoard board) = initScores board :=
  initLoop_swapBoard board cells _

/-- C19: for a perspective player `p` that is `MARK_X` or `MARK_O`, running on
the board with the two players' marks exchanged, with the opponent of `p` as
perspective and the same random stream, yields the same score vector, the same
returned index and the same consumption of random values (and the same fault, if
any) as running on the board itself with perspective `p`. -/
theorem run_random_games_swap (rnd : Nat → Nat) (k : Nat) (board : TTTBoard)
    (currealplayer : TTTPiece) (count : Int)
    (hp : currealplayer = MARK_X ∨ currealplayer = MARK_O) :
    swapPiece currealplayer = nextPlayer currealplayer ∧
    swapPiece currealplayer ≠ currealplayer ∧
    (∀ i, (swapBoard board).p i = swapPiece (board.p i)) ∧
    runScores rnd k (swapBoard board) (swapPiece currealplayer) count =
      runScores rnd k board currealplayer count ∧
    ttt_run_random_games rnd k (swapBoard board) (swapPiece currealplayer) count =
      ttt_run_random_games rnd k board currealplayer count := by
  have hne : currealplayer ≠ MARK_NONE := by rcases hp with rfl | rfl <;> decide
  have hscores : runScores rnd k (swapBoard board) (swapPiece currealplayer) count =
      runScores rnd k board currealplayer count := by
    unfold runScores
    rw [initScores_swapBoard, playRounds_swap rnd board currealplayer hne]
  refine ⟨?_, ?_, fun _ => rfl, hscores, ?_⟩
  · rcases hp with rfl | rfl <;> rfl
  · rcases hp with rfl | rfl <;> decide
  · unfold ttt_run_random_games
    rw [hscores, initScores_swapBoard]

theorem run_random_games_swap_witness :
    ttt_run_random_games (fun j => j) 0 (swapBoard (boardThreeMarks MARK_X MARK_O))
        (swapPiece MARK_O) ROUNDS =
      ttt_run_random_games (fun j => j) 0 (boardThreeMarks MARK_X MARK_O) MARK_O ROUNDS :=
  (run_random_games_swap (fun j => j) 0 (boardThreeMarks MARK_X MARK_O) MARK_O ROUNDS
    (Or.inr rfl)).2.2.2.2

end MCTTT
